import Mathlib

/-!
Verification of the V3Scope pass (src/V3Scope.cpp): the scope-flattening pass
of Verilator.  The pass is embedded shallowly: the AST is an inductive `Node`
type, node identities (C++ pointers) are natural numbers, and the two visitors
(`ScopeVisitor`, `ScopeCleanupVisitor`) become fuel-indexed interpreters over
an explicit state.  Mutation of node user fields (`user1p`, `user2p`,
`attrClocker`, `varScopep`) is modelled by association lists in the state,
keyed by node identity.  Fatal errors (`v3fatalSrc`, `UASSERT_OBJ`) are the
`Except.error` path; the one user-facing error (`v3error`) is recorded in
`userErrors` and does not abort, matching the `return` in the source.
-/

/-- Association-list lookup, modelling reads of a `std::map` keyed by node
pointers (here: by numeric node identity). -/
def lookupA {α β : Type} [DecidableEq α] (k : α) : List (α × β) → Option β
  | [] => none
  | (k', v) :: rest => if k' = k then some v else lookupA k rest

/-- Insert-if-absent, modelling `std::map::insert` / `unordered_map::insert`,
which keeps the existing entry when the key is already present. -/
def ainsert {α β : Type} [DecidableEq α] (k : α) (v : β) (l : List (α × β)) :
    List (α × β) :=
  match lookupA k l with
  | some _ => l
  | none => l ++ [(k, v)]

/-- Overwriting update, modelling an assignment to a node field (`user2p(x)`,
`attrClocker(x)`, `varScopep(x)`): the last write wins. -/
def aset {α β : Type} [DecidableEq α] (k : α) (v : β) : List (α × β) → List (α × β)
  | [] => [(k, v)]
  | (k', v') :: rest => if k' = k then (k, v) :: rest else (k', v') :: aset k v rest

/-- Set-style insert, modelling `std::set::insert` (no duplicate elements). -/
def sinsert {α : Type} [DecidableEq α] (x : α) (l : List α) : List α :=
  if x ∈ l then l else l ++ [x]

/-- Clocker annotation of a variable declaration (`VVarAttrClocker`). -/
inductive VVarAttrClocker where
  | CLOCKER_UNKNOWN
  | CLOCKER_YES
  | CLOCKER_NO
deriving DecidableEq, Repr

/-- The data of an `AstCell` edge: instance name, trace opt-out flag
(`AstCell::isTrace`), and the identity of the instantiated module
(`AstCell::modp`, `none` when unlinked). -/
structure CellInfo where
  name : String
  isTrace : Bool
  modp : Option Nat
deriving DecidableEq, Repr

/-- The immutable data of an `AstVar` declaration that this pass reads:
its identity, name, and the `isIfaceRef` / `isClassMember` predicates. -/
structure Var where
  varId : Nat
  name : String
  isIfaceRef : Bool
  isClassMember : Bool
deriving DecidableEq, Repr

/-- AST nodes below the module level, as visited by the pass.  Statement
blocks carry a node identity `nid` (their C++ address) so that the `user2p`
breadcrumb map and `unlinkFrBack` can refer to them.  `varRef` carries a copy
of the referenced declaration's data (`AstVarRef::varp`, `none` if unlinked)
and the referenced package's module identity (`AstVarRef::packagep`).
`ftask` carries the flags from which `AstNodeFTask::classMethod` is derived.
`scopeNode` is an `AstScope` already attached to the tree (ignored by the
builder, a context marker for cleanup).  `other` stands for any node kind
without a dedicated visitor (default `visit(AstNode*)`: iterate children). -/
inductive Node where
  | cell (c : CellInfo) (pins : List Node)
  | var (v : Var)
  | varRef (refId : Nat) (varp : Option Var) (packagep : Option Nat)
  | varXRef (refId : Nat) (varp : Option Nat) (ch : List Node)
  | active
  | procedure (nid : Nat) (ch : List Node)
  | assignAlias (nid : Nat) (ch : List Node)
  | assignVarScope (nid : Nat) (ch : List Node)
  | assignW (nid : Nat) (ch : List Node)
  | alwaysPublic (nid : Nat) (ch : List Node)
  | coverToggle (nid : Nat) (ch : List Node)
  | cfunc (nid : Nat) (ch : List Node)
  | ftask (nid : Nat) (isMethod : Bool) (isVirtualM : Bool) (isOverridden : Bool)
      (ch : List Node)
  | classNode (cname : String) (members : List Node)
  | cellInline (nid : Nat)
  | scopeName (ch : List Node)
  | scopeNode (sid : Nat) (ch : List Node)
  | ftaskRef (isMethodCall : Bool) (packagep : Option Nat) (taskp : Option Nat)
      (ch : List Node)
  | modportFTaskRef (ftaskp : Option Nat) (ch : List Node)
  | other (ch : List Node)

/-- A module template (`AstNodeModule`): identity, name, `isTop`, whether it
is an `AstPackage`, and its statement list (`stmtsp`). -/
structure VModule where
  modId : Nat
  name : String
  isTop : Bool
  isPackage : Bool
  stmts : List Node

/-- The netlist: the list of all module templates (`AstNetlist::modulesp`). -/
structure Netlist where
  modules : List VModule

/-- The global configuration queried by the pass (`v3Global.opt`): the
explicit clock / not-clock name lists. -/
structure VConfig where
  clockerNames : List String
  noClockerNames : List String

/-- Membership test against the explicit-clock list (`V3Options::isClocker`). -/
def VConfig.isClocker (c : VConfig) (s : String) : Bool := c.clockerNames.contains s

/-- Membership test against the explicit-not-clock list
(`V3Options::isNoClocker`). -/
def VConfig.isNoClocker (c : VConfig) (s : String) : Bool :=
  c.noClockerNames.contains s

/-- Modelled from the spec: `AstNodeFTask::classMethod()` (set outside this
file).  The spec characterises the re-parented methods as class methods known
to have a single possible binding: non-overridden, non-virtual. -/
def classMethodFlag (isMethod isVirtualM isOverridden : Bool) : Bool :=
  isMethod && !isVirtualM && !isOverridden

/-- Child list of a node, as iterated by `iterateChildren`. -/
def childrenOf : Node → List Node
  | .cell _ pins => pins
  | .var _ => []
  | .varRef _ _ _ => []
  | .varXRef _ _ ch => ch
  | .active => []
  | .procedure _ ch => ch
  | .assignAlias _ ch => ch
  | .assignVarScope _ ch => ch
  | .assignW _ ch => ch
  | .alwaysPublic _ ch => ch
  | .coverToggle _ ch => ch
  | .cfunc _ ch => ch
  | .ftask _ _ _ _ ch => ch
  | .classNode _ ms => ms
  | .cellInline _ => []
  | .scopeName ch => ch
  | .scopeNode _ ch => ch
  | .ftaskRef _ _ _ ch => ch
  | .modportFTaskRef _ ch => ch
  | .other ch => ch

/-- Rebuild a node with a replacement child list (used by the cleanup pass
when it re-attaches the recursively cleaned children). -/
def withChildren : Node → List Node → Node
  | .cell c _, ch => .cell c ch
  | .var v, _ => .var v
  | .varRef r vp p, _ => .varRef r vp p
  | .varXRef r vp _, ch => .varXRef r vp ch
  | .active, _ => .active
  | .procedure n _, ch => .procedure n ch
  | .assignAlias n _, ch => .assignAlias n ch
  | .assignVarScope n _, ch => .assignVarScope n ch
  | .assignW n _, ch => .assignW n ch
  | .alwaysPublic n _, ch => .alwaysPublic n ch
  | .coverToggle n _, ch => .coverToggle n ch
  | .cfunc n _, ch => .cfunc n ch
  | .ftask n a b c _, ch => .ftask n a b c ch
  | .classNode cn _, ch => .classNode cn ch
  | .cellInline n, _ => .cellInline n
  | .scopeName _, ch => .scopeName ch
  | .scopeNode s _, ch => .scopeNode s ch
  | .ftaskRef a p t _, ch => .ftaskRef a p t ch
  | .modportFTaskRef f _, ch => .modportFTaskRef f ch
  | .other _, ch => .other ch

/-- The clonable statement-block kinds: exactly those node kinds for which
both visitors have a clone-into-scope visitor (builder) and a
`movedDeleteOrIterate` visitor (cleanup): `AstNodeProcedure`,
`AstAssignAlias`, `AstAssignVarScope`, `AstAssignW`, `AstAlwaysPublic`,
`AstCoverToggle`, `AstNodeFTask`, `AstCFunc`. -/
def cloneKind : Node → Bool
  | .procedure _ _ => true
  | .assignAlias _ _ => true
  | .assignVarScope _ _ => true
  | .assignW _ _ => true
  | .alwaysPublic _ _ => true
  | .coverToggle _ _ => true
  | .ftask _ _ _ _ _ => true
  | .cfunc _ _ => true
  | _ => false

/-- Node identity of a statement block (its C++ address), `0` for kinds
without an identity field. -/
def nidD : Node → Nat
  | .procedure n _ => n
  | .assignAlias n _ => n
  | .assignVarScope n _ => n
  | .assignW n _ => n
  | .alwaysPublic n _ => n
  | .coverToggle n _ => n
  | .ftask n _ _ _ _ => n
  | .cfunc n _ => n
  | .cellInline n => n
  | _ => 0

mutual

/-- All node identities occurring in a subtree (variable identities,
reference identities, block identities, scope identities).  Pointer
distinctness of the C++ AST is the hypothesis that this pool is
duplicate-free. -/
def idsOf : Node → List Nat
  | .cell _ pins => idsOfL pins
  | .var v => [v.varId]
  | .varRef r _ _ => [r]
  | .varXRef r _ ch => r :: idsOfL ch
  | .active => []
  | .procedure n ch => n :: idsOfL ch
  | .assignAlias n ch => n :: idsOfL ch
  | .assignVarScope n ch => n :: idsOfL ch
  | .assignW n ch => n :: idsOfL ch
  | .alwaysPublic n ch => n :: idsOfL ch
  | .coverToggle n ch => n :: idsOfL ch
  | .cfunc n ch => n :: idsOfL ch
  | .ftask n _ _ _ ch => n :: idsOfL ch
  | .classNode _ ms => idsOfL ms
  | .cellInline n => [n]
  | .scopeName ch => idsOfL ch
  | .scopeNode s ch => s :: idsOfL ch
  | .ftaskRef _ _ _ ch => idsOfL ch
  | .modportFTaskRef _ ch => idsOfL ch
  | .other ch => idsOfL ch

/-- Pool of node identities of a node list. -/
def idsOfL : List Node → List Nat
  | [] => []
  | n :: ns => idsOf n ++ idsOfL ns

end

mutual

/-- Clone of a subtree with all node identities renumbered from a fresh
counter, modelling `AstNode::cloneTree(false)` allocating new nodes.
Returns the clone, the advanced counter, and the renaming of the variable
declarations cloned along (for `cloneRelink` of internal references). -/
def cloneNode : Node → Nat → Node × Nat × List (Nat × Nat)
  | .cell c pins, b =>
    let (pins', b', m) := cloneList pins b
    (.cell c pins', b', m)
  | .var v, b => (.var { v with varId := b }, b + 1, [(v.varId, b)])
  | .varRef _ vp p, b => (.varRef b vp p, b + 1, [])
  | .varXRef _ vp ch, b =>
    let (ch', b', m) := cloneList ch (b + 1)
    (.varXRef b vp ch', b', m)
  | .active, b => (.active, b, [])
  | .procedure _ ch, b =>
    let (ch', b', m) := cloneList ch (b + 1)
    (.procedure b ch', b', m)
  | .assignAlias _ ch, b =>
    let (ch', b', m) := cloneList ch (b + 1)
    (.assignAlias b ch', b', m)
  | .assignVarScope _ ch, b =>
    let (ch', b', m) := cloneList ch (b + 1)
    (.assignVarScope b ch', b', m)
  | .assignW _ ch, b =>
    let (ch', b', m) := cloneList ch (b + 1)
    (.assignW b ch', b', m)
  | .alwaysPublic _ ch, b =>
    let (ch', b', m) := cloneList ch (b + 1)
    (.alwaysPublic b ch', b', m)
  | .coverToggle _ ch, b =>
    let (ch', b', m) := cloneList ch (b + 1)
    (.coverToggle b ch', b', m)
  | .cfunc _ ch, b =>
    let (ch', b', m) := cloneList ch (b + 1)
    (.cfunc b ch', b', m)
  | .ftask _ im iv io ch, b =>
    let (ch', b', m) := cloneList ch (b + 1)
    (.ftask b im iv io ch', b', m)
  | .classNode cn ms, b =>
    let (ms', b', m) := cloneList ms b
    (.classNode cn ms', b', m)
  | .cellInline _, b => (.cellInline b, b + 1, [])
  | .scopeName ch, b =>
    let (ch', b', m) := cloneList ch b
    (.scopeName ch', b', m)
  | .scopeNode _ ch, b =>
    let (ch', b', m) := cloneList ch (b + 1)
    (.scopeNode b ch', b', m)
  | .ftaskRef a p t ch, b =>
    let (ch', b', m) := cloneList ch b
    (.ftaskRef a p t ch', b', m)
  | .modportFTaskRef f ch, b =>
    let (ch', b', m) := cloneList ch b
    (.modportFTaskRef f ch', b', m)
  | .other ch, b =>
    let (ch', b', m) := cloneList ch b
    (.other ch', b', m)

/-- Clone of a node list (sibling chain) under a shared fresh counter. -/
def cloneList : List Node → Nat → List Node × Nat × List (Nat × Nat)
  | [], b => ([], b, [])
  | n :: ns, b =>
    let (n', b', m1) := cloneNode n b
    let (ns', b'', m2) := cloneList ns b'
    (n' :: ns', b'', m1 ++ m2)

end

mutual

/-- Relink step of `cloneTree`: a variable reference whose target declaration
was cloned along with the subtree is redirected to the clone of that
declaration; references to declarations outside the cloned subtree are kept. -/
def relinkNode (m : List (Nat × Nat)) : Node → Node
  | .varRef r (some v) p =>
    match lookupA v.varId m with
    | some v' => .varRef r (some { v with varId := v' }) p
    | none => .varRef r (some v) p
  | .varRef r none p => .varRef r none p
  | .cell c pins => .cell c (relinkList m pins)
  | .var v => .var v
  | .varXRef r vp ch => .varXRef r vp (relinkList m ch)
  | .active => .active
  | .procedure n ch => .procedure n (relinkList m ch)
  | .assignAlias n ch => .assignAlias n (relinkList m ch)
  | .assignVarScope n ch => .assignVarScope n (relinkList m ch)
  | .assignW n ch => .assignW n (relinkList m ch)
  | .alwaysPublic n ch => .alwaysPublic n (relinkList m ch)
  | .coverToggle n ch => .coverToggle n (relinkList m ch)
  | .cfunc n ch => .cfunc n (relinkList m ch)
  | .ftask n a b c ch => .ftask n a b c (relinkList m ch)
  | .classNode cn ms => .classNode cn (relinkList m ms)
  | .cellInline n => .cellInline n
  | .scopeName ch => .scopeName (relinkList m ch)
  | .scopeNode s ch => .scopeNode s (relinkList m ch)
  | .ftaskRef a p t ch => .ftaskRef a p t (relinkList m ch)
  | .modportFTaskRef f ch => .modportFTaskRef f (relinkList m ch)
  | .other ch => .other (relinkList m ch)

/-- Relink of a node list. -/
def relinkList (m : List (Nat × Nat)) : List Node → List Node
  | [] => []
  | n :: ns => relinkNode m n :: relinkList m ns

end

/-- `AstNode::cloneTree(false)`: clone with fresh identities, then relink the
internal variable references to the cloned declarations. -/
def cloneTree (n : Node) (b : Nat) : Node × Nat :=
  let (n', b', m) := cloneNode n b
  (relinkNode m n', b')

/-- A created `AstScope`: identity, hierarchical path name, the module it was
created for (`AstScope::modp`), the instantiating scope and cell back-pointers
(`aboveScopep`, `aboveCellp`).  `fromClass` is a provenance annotation: for a
scope made by `visit(AstClass*)` it holds the class name (the source encodes
this only in the name string). -/
structure ScopeRec where
  sid : Nat
  name : String
  modId : Option Nat
  aboveScope : Option Nat
  aboveCell : Option CellInfo
  fromClass : Option String
deriving DecidableEq, Repr

/-- A created `AstVarScope` (variable binding): identity, the declaration and
scope it binds (the key of `m_varScopes`), its trace-enable flag and the
fully qualified pretty name consulted for the clocker lists. -/
structure VarScopeRec where
  vsId : Nat
  varId : Nat
  sid : Nat
  trace : Bool
  prettyName : String
deriving DecidableEq, Repr

/-- An element of the deferred-reference worklist `m_varRefScopes`: the
reference (identity plus the fields read at resolution time) paired with the
scope that was current when it was visited. -/
structure RefScope where
  refId : Nat
  varp : Var
  packagep : Option Nat
  scopep : Option Nat
deriving DecidableEq, Repr

/-- How a created scope was attached to the output tree. -/
inductive AttachKind where
  | viaTopScope
  | asModuleStmt
  | asClassMember
deriving DecidableEq, Repr

/-- The state of the `ScopeVisitor` run.  `nextId` is the fresh-identity
counter standing for the C++ allocator: every `new` node (scope, varscope,
clone) draws identities from it.  `user1` is the set of variable identities
with `user1p` set (cleared by `AstNode::user1ClearTree`).  `user2` is the
original-to-clone breadcrumb (`user2p`).  `attrClocker` is the clocker
annotation stored on the shared variable declarations (`AstVar::attrClocker`).
`boundRefs` records every write of `AstVarRef::varScopep`.  `unlinked` holds
blocks removed from the tree by `unlinkFrBack`.  `resolved` is a record of
the resolutions performed by `cleanupVarRefs`. -/
structure BState where
  nextId : Nat
  scopes : List ScopeRec
  packageScopes : List (Nat × Nat)
  varScopes : List ((Nat × Nat) × Nat)
  createdVS : List VarScopeRec
  varRefScopes : List RefScope
  user1 : List Nat
  user2 : List (Nat × Nat)
  attrClocker : List (Nat × VVarAttrClocker)
  boundRefs : List (Nat × Option Nat)
  unlinked : List Nat
  activeps : List (Nat × Node)
  attachedScopes : List (Nat × AttachKind)
  cfuncScopes : List (Nat × Nat)
  cellInlines : List (Nat × Option Nat)
  scopeNamePfxs : List String
  resolved : List (RefScope × Nat)
  userErrors : List String

/-- Initial state of a run; `n0` seeds the fresh-identity counter and must
lie above every identity of the input netlist. -/
def initState (n0 : Nat) : BState :=
  { nextId := n0, scopes := [], packageScopes := [], varScopes := [],
    createdVS := [], varRefScopes := [], user1 := [], user2 := [],
    attrClocker := [], boundRefs := [], unlinked := [], activeps := [],
    attachedScopes := [], cfuncScopes := [], cellInlines := [],
    scopeNamePfxs := [], resolved := [], userErrors := [] }

/-- The visitor's cursor fields, passed down by value: `m_modp`, `m_scopep`,
`m_aboveCellp`, `m_aboveScopep`.  The source saves and restores the latter
two around each descent; value passing reproduces that discipline (spec §5). -/
structure Ctx where
  modId : Option Nat
  scopep : Option Nat
  aboveCellp : Option CellInfo
  aboveScopep : Option Nat

/-- Pending work of the builder: visiting a module (`visit(AstNodeModule*)`),
the child-cell loop inside it, a single statement, or a statement list
(`iterateChildren`). -/
inductive Job where
  | mod (m : VModule) (ctx : Ctx)
  | cells (ns : List Node) (ctx : Ctx)
  | stmt (n : Node) (ctx : Ctx)
  | list (ns : List Node) (ctx : Ctx)

/-- Name of a scope by identity (`AstScope::name()` through a pointer); the
empty string stands for the unreachable null-pointer dereference. -/
def sname (s : BState) (sid : Nat) : String :=
  match s.scopes.find? (fun sc => sc.sid == sid) with
  | some sc => sc.name
  | none => ""

/-- Instance name of the cell above, `""` when there is none (the source
never reads the name in that case). -/
def cellNameD : Option CellInfo → String
  | some c => c.name
  | none => ""

/-- Whether the instantiating cell exists and opted out of tracing
(`m_aboveCellp && !m_aboveCellp->isTrace()`). -/
def cellNoTrace : Option CellInfo → Bool
  | some c => !c.isTrace
  | none => false

/-- Module lookup by identity (a linked `AstCell::modp` pointer). -/
def findMod (nl : Netlist) (i : Nat) : Option VModule :=
  nl.modules.find? (fun m => m.modId == i)

/-- The `ScopeVisitor` traversal as a fuel-indexed interpreter.  Each case is
the corresponding `visit` method of the source; `Except.error` is the fatal
path (`v3fatalSrc` / `UASSERT_OBJ`); running out of fuel is an artificial
error standing for unbounded recursion (the C++ recursion is bounded by the
instantiation hierarchy, which upstream guarantees acyclic). -/
def exec (cfg : VConfig) (nl : Netlist) : Nat → Job → BState → Except String BState
  | 0, _, _ => .error "recursion limit"
  | fuel + 1, .mod m ctx, s =>
    -- visit(AstNodeModule*)
    let scopename :=
      match ctx.aboveScopep with
      | none => "TOP"
      | some ps => sname s ps ++ "." ++ cellNameD ctx.aboveCellp
    -- AstNode::user1ClearTree()
    let s := { s with user1 := [] }
    -- m_scopep = new AstScope(..., nodep, scopename, m_aboveScopep, m_aboveCellp)
    let sid := s.nextId
    let s := { s with
      nextId := sid + 1,
      scopes := s.scopes ++
        [ScopeRec.mk sid scopename (some m.modId) ctx.aboveScopep ctx.aboveCellp none] }
    -- if package: record in m_packageScopes (first insert wins)
    let s :=
      if m.isPackage then
        { s with packageScopes := ainsert m.modId sid s.packageScopes }
      else s
    do
      -- the child-cell loop over stmtsp
      let s ← exec cfg nl fuel (.cells m.stmts { ctx with scopep := some sid }) s
      -- second user1ClearTree; m_modp = nodep; attach the scope (top gets
      -- wrapped in an AstTopScope, others are added as ordinary statements)
      let s := { s with
        user1 := [],
        attachedScopes := s.attachedScopes ++
          [(sid, if m.isTop then AttachKind.viaTopScope else AttachKind.asModuleStmt)] }
      -- iterateChildren(nodep)
      exec cfg nl fuel
        (.list m.stmts
          { modId := some m.modId, scopep := some sid,
            aboveCellp := ctx.aboveCellp, aboveScopep := ctx.aboveScopep }) s
  | _ + 1, .cells [] _, s => .ok s
  | fuel + 1, .cells (n :: ns) ctx, s =>
    match n with
    | .cell c _ => do
      let s ←
        match c.modp with
        | none => .error "Unlinked mod"
        | some mid =>
          match findMod nl mid with
          | none => .error "Unlinked mod"
          | some m2 =>
            -- m_aboveCellp = cellp; m_aboveScopep = m_scopep; iterate(modp);
            -- the outer cursor values are restored afterwards (value passing)
            exec cfg nl fuel
              (.mod m2 { ctx with aboveCellp := some c, aboveScopep := ctx.scopep }) s
      exec cfg nl fuel (.cells ns ctx) s
    | _ => exec cfg nl fuel (.cells ns ctx) s
  | _ + 1, .list [] _, s => .ok s
  | fuel + 1, .list (n :: ns) ctx, s =>
    match n with
    | .ftask nid im iv io ch =>
      -- a task moved into a scope earlier was removed from the tree by
      -- unlinkFrBack and is no longer part of this sibling chain
      if nid ∈ s.unlinked then exec cfg nl fuel (.list ns ctx) s
      else do
        let s ← exec cfg nl fuel (.stmt (.ftask nid im iv io ch) ctx) s
        exec cfg nl fuel (.list ns ctx) s
    | n => do
      let s ← exec cfg nl fuel (.stmt n ctx) s
      exec cfg nl fuel (.list ns ctx) s
  | fuel + 1, .stmt n ctx, s =>
    match n with
    | .cell _ pins =>
      -- no dedicated visitor at this phase: default visit, iterate children
      exec cfg nl fuel (.list pins ctx) s
    | .var v =>
      -- visit(AstVar*)
      if v.varId ∈ s.user1 then .ok s
      else
        match ctx.scopep with
        | none => .error "No scope for var"
        | some sid =>
          let pretty := sname s sid ++ "." ++ v.name
          let vsId := s.nextId
          let traceOn := !cellNoTrace ctx.aboveCellp
          let s := { s with
            nextId := vsId + 1,
            createdVS := s.createdVS ++ [VarScopeRec.mk vsId v.varId sid traceOn pretty],
            user1 := v.varId :: s.user1 }
          let s :=
            if cfg.isClocker pretty then
              { s with attrClocker := aset v.varId .CLOCKER_YES s.attrClocker }
            else s
          let s :=
            if cfg.isNoClocker pretty then
              { s with attrClocker := aset v.varId .CLOCKER_NO s.attrClocker }
            else s
          .ok { s with varScopes := ainsert (v.varId, sid) vsId s.varScopes }
    | .varRef rid vp pkg =>
      -- visit(AstVarRef*)
      match vp with
      | none => .error "Unlinked"
      | some v =>
        if v.isIfaceRef then .ok { s with boundRefs := aset rid none s.boundRefs }
        else
          .ok { s with
            varRefScopes :=
              sinsert (RefScope.mk rid v pkg ctx.scopep) s.varRefScopes }
    | .active => .error "Actives now made after scoping"
    | .procedure nid ch | .assignAlias nid ch | .assignVarScope nid ch
    | .assignW nid ch | .alwaysPublic nid ch | .coverToggle nid ch =>
      -- visit(AstNodeProcedure* / AstAssignAlias* / AstAssignVarScope* /
      -- AstAssignW* / AstAlwaysPublic* / AstCoverToggle*): clone, breadcrumb,
      -- addActivep, iterate under the clone
      match ctx.scopep with
      | none => .error "NULL scope"
      | some sid =>
        let cl := cloneTree (withChildren n ch) s.nextId
        let s := { s with
          nextId := cl.2,
          user2 := aset nid (nidD cl.1) s.user2,
          activeps := s.activeps ++ [(sid, cl.1)] }
        exec cfg nl fuel (.list (childrenOf cl.1) ctx) s
    | .cfunc nid ch =>
      -- visit(AstCFunc*): as above, plus clonep->scopep(m_scopep)
      match ctx.scopep with
      | none => .error "NULL scope"
      | some sid =>
        let cl := cloneTree (.cfunc nid ch) s.nextId
        let s := { s with
          nextId := cl.2,
          user2 := aset nid (nidD cl.1) s.user2,
          activeps := s.activeps ++ [(sid, cl.1)],
          cfuncScopes := s.cfuncScopes ++ [(nidD cl.1, sid)] }
        exec cfg nl fuel (.list (childrenOf cl.1) ctx) s
    | .ftask nid im iv io ch =>
      -- visit(AstNodeFTask*): a classMethod task is moved (unlinkFrBack),
      -- any other task is cloned; either way user2p records the breadcrumb
      match ctx.scopep with
      | none => .error "NULL scope"
      | some sid =>
        if classMethodFlag im iv io then
          let s := { s with
            unlinked := nid :: s.unlinked,
            user2 := aset nid nid s.user2,
            activeps := s.activeps ++ [(sid, .ftask nid im iv io ch)] }
          exec cfg nl fuel (.list ch ctx) s
        else
          let cl := cloneTree (.ftask nid im iv io ch) s.nextId
          let s := { s with
            nextId := cl.2,
            user2 := aset nid (nidD cl.1) s.user2,
            activeps := s.activeps ++ [(sid, cl.1)] }
          exec cfg nl fuel (.list (childrenOf cl.1) ctx) s
    | .classNode cn members =>
      -- visit(AstClass*): m_aboveScopep = m_scopep; new scope named after the
      -- class; attach to the class members; iterate members.  The source
      -- calls user1ClearTree twice back to back here; a single clear has the
      -- same effect (no variable is visited in between).
      let aboveScopep2 := ctx.scopep
      let scopename :=
        match aboveScopep2 with
        | none => "TOP"
        | some ps => sname s ps ++ "." ++ cn
      let s := { s with user1 := [] }
      let sid2 := s.nextId
      let s := { s with
        nextId := sid2 + 1,
        scopes := s.scopes ++
          [ScopeRec.mk sid2 scopename ctx.modId aboveScopep2 ctx.aboveCellp (some cn)],
        attachedScopes := s.attachedScopes ++ [(sid2, AttachKind.asClassMember)] }
      exec cfg nl fuel
        (.list members
          { modId := ctx.modId, scopep := some sid2,
            aboveCellp := ctx.aboveCellp, aboveScopep := aboveScopep2 }) s
    | .cellInline nid =>
      -- visit(AstCellInline*): nodep->scopep(m_scopep), no recursion
      .ok { s with cellInlines := s.cellInlines ++ [(nid, ctx.scopep)] }
    | .scopeName ch =>
      -- visit(AstScopeName*): prepend "__DOT__" + scope path to the display
      -- text chains, then iterate children
      match ctx.scopep with
      | none => .error "NULL scope"
      | some sid =>
        let s := { s with
          scopeNamePfxs := s.scopeNamePfxs ++ ["__DOT__" ++ sname s sid] }
        exec cfg nl fuel (.list ch ctx) s
    | .scopeNode _ _ =>
      -- visit(AstScope*): a scope made for a different cell; ignore
      .ok s
    | .varXRef _ _ ch => exec cfg nl fuel (.list ch ctx) s
    | .ftaskRef _ _ _ ch => exec cfg nl fuel (.list ch ctx) s
    | .modportFTaskRef _ ch => exec cfg nl fuel (.list ch ctx) s
    | .other ch => exec cfg nl fuel (.list ch ctx) s

/-- The resolution of one worklist entry inside `cleanupVarRefs`: swap in the
package's singleton scope for a package member that is not a class member,
then look up the (declaration, scope) binding and bind the reference. -/
def resolveOne (s : BState) (e : RefScope) : Except String BState :=
  match
    (match e.packagep with
     | some p =>
       if e.varp.isClassMember then some e.scopep
       else
         match lookupA p s.packageScopes with
         | none => none
         | some ps => some (some ps)
     | none => some e.scopep) with
  | none => .error "Can't locate package scope"
  | some scopep =>
    match scopep with
    | none => .error "Can't locate varref scope"
    | some sc =>
      match lookupA (e.varp.varId, sc) s.varScopes with
      | none => .error "Can't locate varref scope"
      | some vs =>
        .ok { s with
          boundRefs := aset e.refId (some vs) s.boundRefs,
          resolved := s.resolved ++ [(e, vs)] }

/-- `ScopeVisitor::cleanupVarRefs`: drain the deferred-reference worklist. -/
def cleanupVarRefs (s : BState) : Except String BState :=
  s.varRefScopes.foldlM resolveOne s

/-- The designated top module of the netlist.  Modelled from the spec:
`AstNetlist::topModulep` is defined outside this file; the spec describes it
as the top module supplied to the pass. -/
def topModulep (nl : Netlist) : Option VModule :=
  nl.modules.find? (fun m => m.isTop)

/-- A complete `ScopeVisitor` run (`visit(AstNetlist*)`): report the
user-facing error and stop if there is no top module, otherwise traverse from
the top and then drain the worklist. -/
def scopeVisitorRun (cfg : VConfig) (nl : Netlist) (n0 fuel : Nat) :
    Except String BState :=
  match topModulep nl with
  | none =>
    .ok { initState n0 with userErrors := ["No top level module found"] }
  | some m => do
    let s ← exec cfg nl fuel (.mod m ⟨none, none, none, none⟩) (initState n0)
    cleanupVarRefs s

/-- Extraction of the state of a successful run (used to instantiate the
universally quantified theorems at concrete inputs). -/
def getOk : Except String BState → BState
  | .ok s => s
  | .error _ => initState 0

/-- State of the `ScopeCleanupVisitor` walk: whether the cursor is inside a
scope (`m_scopep` is only ever tested for nullness), and the nodes queued for
deallocation by `pushDeletep`. -/
structure CState where
  inScope : Bool
  deleted : List Node

/-- Pending work of the cleanup pass: one node or a sibling list. -/
inductive CJob where
  | cnode (n : Node)
  | clist (ns : List Node)

/-- The `ScopeCleanupVisitor` traversal as a fuel-indexed interpreter.  A
visited node is returned as a zero-or-one element list: `[]` when
`movedDeleteOrIterate` unlinked and queued it, `[n']` when it survives with
its children rewritten in place.  `user2` is the breadcrumb map left by the
builder (`user2p`), read by `visit(AstNodeFTaskRef*)`. -/
def cleanExec (user2 : List (Nat × Nat)) :
    Nat → CJob → CState → Except String (List Node × CState)
  | 0, _, _ => .error "recursion limit"
  | _ + 1, .clist [], st => .ok ([], st)
  | fuel + 1, .clist (n :: ns), st => do
    let (h, st) ← cleanExec user2 fuel (.cnode n) st
    let (t, st) ← cleanExec user2 fuel (.clist ns) st
    .ok (h ++ t, st)
  | fuel + 1, .cnode n, st =>
    match n with
    | .scopeNode sid ch => do
      -- visit(AstScope*): mark the context, iterate, then m_scopep = NULL
      let (ch', st') ← cleanExec user2 fuel (.clist ch) { st with inScope := true }
      .ok ([.scopeNode sid ch'], { st' with inScope := false })
    | .varXRef rid _ ch =>
      -- visit(AstVarXRef*): null the target, no recursion (dealt with in
      -- V3LinkDot)
      .ok ([.varXRef rid none ch], st)
    | .ftaskRef mcall pkg taskp ch =>
      -- visit(AstNodeFTaskRef*)
      (match pkg with
       | some _ =>
         match taskp with
         | none => .error "Unlinked"
         | some t =>
           match lookupA t user2 with
           | none => .error "No clone for package function"
           | some nt => do
             let (ch', st') ← cleanExec user2 fuel (.clist ch) st
             .ok ([.ftaskRef mcall pkg (some nt) ch'], st')
       | none =>
         if !mcall then do
           let (ch', st') ← cleanExec user2 fuel (.clist ch) st
           .ok ([.ftaskRef mcall pkg none ch'], st')
         else do
           let (ch', st') ← cleanExec user2 fuel (.clist ch) st
           .ok ([.ftaskRef mcall pkg taskp ch'], st'))
    | .modportFTaskRef _ ch => do
      -- visit(AstModportFTaskRef*): null the target, iterate children
      let (ch', st') ← cleanExec user2 fuel (.clist ch) st
      .ok ([.modportFTaskRef none ch'], st')
    | n =>
      if cloneKind n then
        -- movedDeleteOrIterate, shared by the eight block visitors
        if st.inScope then do
          let (ch', st') ← cleanExec user2 fuel (.clist (childrenOf n)) st
          .ok ([withChildren n ch'], st')
        else
          .ok ([], { st with deleted := st.deleted ++ [n] })
      else do
        -- default visit(AstNode*): iterate children
        let (ch', st') ← cleanExec user2 fuel (.clist (childrenOf n)) st
        .ok ([withChildren n ch'], st')

/-- A whole `ScopeCleanupVisitor` run: iterate over the netlist's modules in
order, cleaning each statement list; the context state threads through the
whole walk, as the visitor's member variable does. -/
def cleanNetlist (user2 : List (Nat × Nat)) (fuel : Nat) (nl : Netlist) :
    Except String (Netlist × CState) := do
  let r ← nl.modules.foldlM
    (fun (acc : List VModule × CState) m => do
      let (stmts', st') ← cleanExec user2 fuel (.clist m.stmts) acc.2
      pure (acc.1 ++ [{ m with stmts := stmts' }], st'))
    ([], ⟨false, []⟩)
  .ok (⟨r.1⟩, r.2)

mutual

/-- No clonable statement block is encountered outside a scope when the
cleanup traversal walks this subtree: scope subtrees satisfy it trivially
(their content is inside a scope), `varXRef` subtrees are not traversed, a
clonable block fails it, and any other node passes it on to its children. -/
def outsideClean : Node → Bool
  | .scopeNode _ _ => true
  | .varXRef _ _ _ => true
  | .procedure _ _ => false
  | .assignAlias _ _ => false
  | .assignVarScope _ _ => false
  | .assignW _ _ => false
  | .alwaysPublic _ _ => false
  | .coverToggle _ _ => false
  | .ftask _ _ _ _ _ => false
  | .cfunc _ _ => false
  | .cell _ pins => outsideCleanL pins
  | .var _ => true
  | .varRef _ _ _ => true
  | .active => true
  | .classNode _ ms => outsideCleanL ms
  | .cellInline _ => true
  | .scopeName ch => outsideCleanL ch
  | .ftaskRef _ _ _ ch => outsideCleanL ch
  | .modportFTaskRef _ ch => outsideCleanL ch
  | .other ch => outsideCleanL ch

/-- List version of `outsideClean`. -/
def outsideCleanL : List Node → Bool
  | [] => true
  | n :: ns => outsideClean n && outsideCleanL ns

end

/-- The pure resolution function that `cleanupVarRefs` computes for each
worklist entry, over the (by then frozen) package-scope and binding tables. -/
def resolveVS (pkgs : List (Nat × Nat)) (vmap : List ((Nat × Nat) × Nat))
    (e : RefScope) : Option Nat :=
  match
    (match e.packagep with
     | some p =>
       if e.varp.isClassMember then some e.scopep
       else
         match lookupA p pkgs with
         | none => none
         | some ps => some (some ps)
     | none => some e.scopep) with
  | none => none
  | some none => none
  | some (some sc) => lookupA (e.varp.varId, sc) vmap

/-- Well-formedness of an input netlist relative to the identity seed `n0`:
within each module the pool of node identities is duplicate-free (distinct
AST nodes are distinct C++ objects) and lies below `n0` (the allocator never
re-issues a live address). -/
def NetlistWF (nl : Netlist) (n0 : Nat) : Prop :=
  (∀ m ∈ nl.modules, (idsOfL m.stmts).Nodup) ∧
  (∀ m ∈ nl.modules, ∀ i ∈ idsOfL m.stmts, i < n0)

instance (nl : Netlist) (n0 : Nat) : Decidable (NetlistWF nl n0) := by
  unfold NetlistWF
  infer_instance

/-- The binding keys (declaration identity, scope identity) of the bindings
created so far, in creation order. -/
def vsKeys (s : BState) : List (Nat × Nat) :=
  s.createdVS.map (fun r => (r.varId, r.sid))

/-- The cursor values are consistent with the state: the current scope (when
set) is a created scope whose instantiating-cell back-pointer is the current
`m_aboveCellp`.  This holds at every point where statements are visited. -/
def CtxOK (s : BState) (ctx : Ctx) : Prop :=
  ∀ sid, ctx.scopep = some sid →
    ∃ sc ∈ s.scopes, sc.sid = sid ∧ sc.aboveCell = ctx.aboveCellp

/-- The naming discipline of a created scope (claim C5): "TOP" with no parent
scope, else the parent scope's path extended by the instantiating cell's
instance name (module scopes) or by the class name (class scopes). -/
def ScNameOK (scopes : List ScopeRec) (sc : ScopeRec) : Prop :=
  match sc.aboveScope with
  | none => sc.name = "TOP"
  | some ps =>
    ∃ pc ∈ scopes, pc.sid = ps ∧
      sc.name = pc.name ++ "." ++
        (match sc.fromClass with
         | some cn => cn
         | none => cellNameD sc.aboveCell) ∧
      (sc.fromClass = none → sc.aboveCell.isSome = true)

/-- The run invariant of the builder: allocation bounds for the created
bindings, duplicate-freedom of binding keys and binding identities, the
binding table's agreement with the creation record, the scope-naming
discipline, the per-binding trace rule, the provenance of the clocker
annotations, that the builder only ever writes null reference bindings, that
no interface reference is queued, and that the package-scope table is a
duplicate-free record of scopes created for packages. -/
structure SInv (cfg : VConfig) (s : BState) : Prop where
  vsBound : ∀ r ∈ s.createdVS,
    r.varId < s.nextId ∧ r.sid < s.nextId ∧ r.vsId < s.nextId
  scBound : ∀ sc ∈ s.scopes, sc.sid < s.nextId
  vsIdsND : (s.createdVS.map (fun r => r.vsId)).Nodup
  keysND : (vsKeys s).Nodup
  mapLink : ∀ p ∈ s.varScopes,
    ∃ r ∈ s.createdVS, r.varId = p.1.1 ∧ r.sid = p.1.2 ∧ r.vsId = p.2
  nameOK : ∀ sc ∈ s.scopes, ScNameOK s.scopes sc
  traceOK : ∀ r ∈ s.createdVS, ∃ sc ∈ s.scopes, sc.sid = r.sid ∧
    (r.trace = false ↔ cellNoTrace sc.aboveCell = true)
  clockOK : ∀ p ∈ s.attrClocker, ∃ r ∈ s.createdVS, r.varId = p.1 ∧
    ((p.2 = VVarAttrClocker.CLOCKER_YES ∧ cfg.isClocker r.prettyName = true) ∨
     (p.2 = VVarAttrClocker.CLOCKER_NO ∧ cfg.isNoClocker r.prettyName = true))
  boundNone : ∀ p ∈ s.boundRefs, p.2 = none
  wlNoIface : ∀ e ∈ s.varRefScopes, e.varp.isIfaceRef = false
  pkgND : (s.packageScopes.map (fun p => p.1)).Nodup
  pkgLink : ∀ p ∈ s.packageScopes,
    ∃ sc ∈ s.scopes, sc.sid = p.2 ∧ sc.modId = some p.1 ∧ sc.fromClass = none

/-- The scope that is current for the statements a job visits (none for the
module and cell-loop jobs, whose bindings are all created under scopes
allocated after the job starts). -/
def jobCur : Job → Option Nat
  | .stmt _ ctx => ctx.scopep
  | .list _ ctx => ctx.scopep
  | .mod _ _ => none
  | .cells _ _ => none

/-- Identity pool of the nodes a job visits directly. -/
def jobIds : Job → List Nat
  | .stmt n _ => idsOf n
  | .list ns _ => idsOfL ns
  | .mod _ _ => []
  | .cells _ _ => []

/-- Shape of a binding created while a job runs: it either belongs to the
job's current scope and binds a declaration from the job's own nodes or a
freshly cloned one, or it belongs to a scope allocated after the job began. -/
def newEntryOK (cur : Option Nat) (base : Nat) (ids : List Nat)
    (r : VarScopeRec) : Prop :=
  (cur = some r.sid ∧ (r.varId ∈ ids ∨ base ≤ r.varId)) ∨ base ≤ r.sid

/-- Job-indexed precondition of the traversal: module jobs visit a module of
the netlist whose above-scope (if any) exists and comes with a cell; cell
loops run with an existing current scope; statement jobs run with a
consistent cursor over nodes whose identities are duplicate-free, already
allocated, and not yet bound in the current scope. -/
def JobPre (nl : Netlist) : Job → BState → Prop
  | .mod m ctx, s =>
    m ∈ nl.modules ∧
    (∀ ps, ctx.aboveScopep = some ps →
      (∃ pc ∈ s.scopes, pc.sid = ps) ∧ ctx.aboveCellp.isSome = true)
  | .cells _ ctx, s =>
    ∀ sid, ctx.scopep = some sid → ∃ pc ∈ s.scopes, pc.sid = sid
  | .stmt n ctx, s =>
    CtxOK s ctx ∧ (idsOf n).Nodup ∧
    ∀ i ∈ idsOf n, i < s.nextId ∧
      ∀ csid, ctx.scopep = some csid → (i, csid) ∉ vsKeys s
  | .list ns ctx, s =>
    CtxOK s ctx ∧ (idsOfL ns).Nodup ∧
    ∀ i ∈ idsOfL ns, i < s.nextId ∧
      ∀ csid, ctx.scopep = some csid → (i, csid) ∉ vsKeys s

/-- What a successful traversal step adds to the state: the counter only
grows, scopes and bindings are append-only, every added binding satisfies
`newEntryOK`, and the builder never touches the resolution record. -/
def PostC (cur : Option Nat) (base : Nat) (ids : List Nat)
    (s s' : BState) : Prop :=
  s.nextId ≤ s'.nextId ∧
  (∃ l, s'.scopes = s.scopes ++ l) ∧
  (∃ l, s'.createdVS = s.createdVS ++ l ∧
    ∀ r ∈ l, newEntryOK cur base ids r) ∧
  s'.resolved = s.resolved

/-- `PostC` instantiated for a whole job. -/
def Post (j : Job) (s s' : BState) : Prop :=
  PostC (jobCur j) s.nextId (jobIds j) s s'

/-- Variable declaration `x` of the worked example. -/
def exVarX : Var := ⟨10, "x", false, false⟩

/-- Variable declaration `cnt` of the worked example (a package member). -/
def exVarCnt : Var := ⟨20, "cnt", false, false⟩

/-- Leaf module of the worked example: declares `x`, holds a procedural block
reading `x`, and references the package member `cnt`. -/
def exLeaf : VModule :=
  ⟨2, "Leaf", false, false,
    [.var exVarX,
     .procedure 11 [.varRef 12 (some exVarX) none],
     .varRef 13 (some exVarCnt) (some 3)]⟩

/-- Package module of the worked example: declares `cnt`. -/
def exPkg : VModule := ⟨3, "Pkg", false, true, [.var exVarCnt]⟩

/-- Top module of the worked example: instantiates the package once and the
leaf twice, the second time with tracing opted out. -/
def exTop : VModule :=
  ⟨1, "Top", true, false,
    [.cell ⟨"p", true, some 3⟩ [],
     .cell ⟨"a", true, some 2⟩ [],
     .cell ⟨"b", false, some 2⟩ []]⟩

/-- The worked example netlist. -/
def exNl : Netlist := ⟨[exTop, exLeaf, exPkg]⟩

/-- Empty configuration (no explicit clock lists). -/
def exCfg : VConfig := ⟨[], []⟩

/-- Configuration marking the binding `TOP.a.x` as an explicit clock. -/
def exCfgClk : VConfig := ⟨["TOP.a.x"], []⟩

/-- A netlist with no top module. -/
def exNlNoTop : Netlist := ⟨[⟨7, "Orphan", false, false, []⟩]⟩

/-- The facts about the final state of a successful whole run
(`scopeVisitorRun`) from which the per-claim theorems are drawn: the builder
invariants, transported through the worklist drain, plus the specification of
every recorded resolution. -/
structure RunFacts (cfg : VConfig) (s' : BState) : Prop where
  keysND : (vsKeys s').Nodup
  vsIdsND : (s'.createdVS.map (fun r => r.vsId)).Nodup
  mapLink : ∀ p ∈ s'.varScopes,
    ∃ r ∈ s'.createdVS, r.varId = p.1.1 ∧ r.sid = p.1.2 ∧ r.vsId = p.2
  nameOK : ∀ sc ∈ s'.scopes, ScNameOK s'.scopes sc
  traceOK : ∀ r ∈ s'.createdVS, ∃ sc ∈ s'.scopes, sc.sid = r.sid ∧
    (r.trace = false ↔ cellNoTrace sc.aboveCell = true)
  clockOK : ∀ p ∈ s'.attrClocker, ∃ r ∈ s'.createdVS, r.varId = p.1 ∧
    ((p.2 = VVarAttrClocker.CLOCKER_YES ∧ cfg.isClocker r.prettyName = true) ∨
     (p.2 = VVarAttrClocker.CLOCKER_NO ∧ cfg.isNoClocker r.prettyName = true))
  wlNoIface : ∀ e ∈ s'.varRefScopes, e.varp.isIfaceRef = false
  pkgND : (s'.packageScopes.map (fun p => p.1)).Nodup
  pkgLink : ∀ p ∈ s'.packageScopes,
    ∃ sc ∈ s'.scopes, sc.sid = p.2 ∧ sc.modId = some p.1 ∧ sc.fromClass = none
  resolvedOK : ∀ p ∈ s'.resolved, p.1 ∈ s'.varRefScopes ∧
    resolveVS s'.packageScopes s'.varScopes p.1 = some p.2

/-- Whether this node is skipped by the sibling-chain iteration because an
earlier visit moved it out of the tree with `unlinkFrBack` (only tasks are
ever moved). -/
def skipNode (n : Node) (s : BState) : Bool :=
  match n with
  | .ftask nid _ _ _ _ => decide (nid ∈ s.unlinked)
  | _ => false

/-- The cell data of a node, when it is a cell (the filter of the child-cell
loop). -/
def cellOf : Node → Option CellInfo
  | .cell c _ => some c
  | _ => none

/-- Leaf module of the small two-instance example: declares `x` and
references it directly. -/
def exLeaf2 : VModule :=
  ⟨2, "Leaf", false, false, [.var exVarX, .varRef 12 (some exVarX) none]⟩

/-- Top of the small two-instance example: instantiates the leaf twice, the
second time with tracing opted out. -/
def exTop2 : VModule :=
  ⟨1, "Top", true, false,
    [.cell ⟨"a", true, some 2⟩ [], .cell ⟨"b", false, some 2⟩ []]⟩

/-- The small two-instance example netlist. -/
def exPair : Netlist := ⟨[exTop2, exLeaf2]⟩

/-- Top of the small package example: instantiates the package and
references its member. -/
def exTop3 : VModule :=
  ⟨1, "Top", true, false,
    [.cell ⟨"p", true, some 3⟩ [], .varRef 13 (some exVarCnt) (some 3)]⟩

/-- The small package example netlist. -/
def exPkgNl : Netlist := ⟨[exTop3, exPkg]⟩

/-- Top of the small class example: declares a variable and a nested class. -/
def exTop4 : VModule :=
  ⟨1, "Top", true, false,
    [.var ⟨40, "y", false, false⟩,
     .classNode "K" [.var ⟨41, "z", false, false⟩]]⟩

/-- The small class example netlist. -/
def exClassNl : Netlist := ⟨[exTop4]⟩

/-- A netlist for the cleanup pass: one block already moved under a scope,
one leftover template-resident block. -/
def exCleanNl : Netlist :=
  ⟨[⟨5, "M", true, false,
    [.scopeNode 60 [.procedure 61 []], .procedure 62 []]⟩]⟩

/-- Extraction of the result of a successful cleanup run (used to
instantiate the universally quantified theorems at concrete inputs). -/
def cleanOk : Except String (Netlist × CState) → Netlist × CState
  | .ok r => r
  | .error _ => (⟨[]⟩, ⟨false, []⟩)

theorem lookupA_none {α β : Type} [DecidableEq α] {k : α} {l : List (α × β)}
    (h : lookupA k l = none) : ∀ p ∈ l, p.1 ≠ k := by
  induction l with
  | nil => intro p hp; cases hp
  | cons q rest ih =>
    intro p hp
    obtain ⟨k', v⟩ := q
    by_cases hk : k' = k
    · simp [lookupA, hk] at h
    · simp only [lookupA, if_neg hk] at h
      rcases List.mem_cons.mp hp with hp | hp
      · subst hp; exact hk
      · exact ih h p hp

theorem lookupA_mem {α β : Type} [DecidableEq α] {k : α} {v : β}
    {l : List (α × β)} (h : lookupA k l = some v) : (k, v) ∈ l := by
  induction l with
  | nil => cases h
  | cons q rest ih =>
    obtain ⟨k', v'⟩ := q
    by_cases hk : k' = k
    · simp only [lookupA, if_pos hk, Option.some.injEq] at h
      subst hk; subst h
      exact List.mem_cons_self _ _
    · simp only [lookupA, if_neg hk] at h
      exact List.mem_cons_of_mem _ (ih h)

theorem mem_ainsert {α β : Type} [DecidableEq α] {k : α} {v : β}
    {l : List (α × β)} {p : α × β} (h : p ∈ ainsert k v l) :
    p ∈ l ∨ p = (k, v) := by
  unfold ainsert at h
  cases hl : lookupA k l with
  | some w => rw [hl] at h; exact Or.inl h
  | none =>
    rw [hl] at h
    rcases List.mem_append.mp h with h | h
    · exact Or.inl h
    · simp at h; exact Or.inr (by simp [h])

theorem ainsert_keys_nodup {α β : Type} [DecidableEq α] {k : α} {v : β}
    {l : List (α × β)} (h : (l.map Prod.fst).Nodup) :
    ((ainsert k v l).map Prod.fst).Nodup := by
  unfold ainsert
  cases hl : lookupA k l with
  | some w => exact h
  | none =>
    have hk : k ∉ l.map Prod.fst := by
      intro hmem
      rcases List.mem_map.mp hmem with ⟨p, hp, hpk⟩
      exact lookupA_none hl p hp hpk
    simp only [List.map_append, List.map_cons, List.map_nil]
    rw [List.nodup_append]
    refine ⟨h, List.nodup_singleton _, ?_⟩
    intro a ha hb
    simp at hb
    subst hb
    exact hk ha

theorem mem_aset {α β : Type} [DecidableEq α] {k : α} {v : β}
    {l : List (α × β)} {p : α × β} (h : p ∈ aset k v l) :
    p = (k, v) ∨ p ∈ l := by
  induction l with
  | nil => simp [aset] at h; exact Or.inl (by simp [h])
  | cons q rest ih =>
    obtain ⟨k', v'⟩ := q
    by_cases hk : k' = k
    · simp only [aset, if_pos hk] at h
      rcases List.mem_cons.mp h with h | h
      · exact Or.inl h
      · exact Or.inr (List.mem_cons_of_mem _ h)
    · simp only [aset, if_neg hk] at h
      rcases List.mem_cons.mp h with h | h
      · exact Or.inr (by simp [h])
      · rcases ih h with h | h
        · exact Or.inl h
        · exact Or.inr (List.mem_cons_of_mem _ h)

theorem mem_sinsert {α : Type} [DecidableEq α] {x y : α} {l : List α}
    (h : x ∈ sinsert y l) : x = y ∨ x ∈ l := by
  unfold sinsert at h
  by_cases hy : y ∈ l
  · rw [if_pos hy] at h; exact Or.inr h
  · rw [if_neg hy] at h
    rcases List.mem_append.mp h with h | h
    · exact Or.inr h
    · simp at h; exact Or.inl h

theorem sname_spec {s : BState} {sid : Nat}
    (h : ∃ sc ∈ s.scopes, sc.sid = sid) :
    ∃ sc ∈ s.scopes, sc.sid = sid ∧ sname s sid = sc.name := by
  unfold sname
  cases hf : s.scopes.find? (fun sc => sc.sid == sid) with
  | some sc =>
    refine ⟨sc, List.mem_of_find?_eq_some hf, ?_, rfl⟩
    have := List.find?_some hf
    simpa using this
  | none =>
    obtain ⟨sc, hmem, hsid⟩ := h
    have := List.find?_eq_none.mp hf sc hmem
    simp [hsid] at this

theorem findMod_mem {nl : Netlist} {i : Nat} {m : VModule}
    (h : findMod nl i = some m) : m ∈ nl.modules :=
  List.mem_of_find?_eq_some h

theorem topModulep_mem {nl : Netlist} {m : VModule}
    (h : topModulep nl = some m) : m ∈ nl.modules :=
  List.mem_of_find?_eq_some h

theorem ScNameOK_mono {l t : List ScopeRec} {sc : ScopeRec}
    (h : ScNameOK l sc) : ScNameOK (l ++ t) sc := by
  unfold ScNameOK at h ⊢
  cases hab : sc.aboveScope with
  | none => rw [hab] at h; exact h
  | some ps =>
    rw [hab] at h
    obtain ⟨pc, hpc, hrest⟩ := h
    exact ⟨pc, List.mem_append_left _ hpc, hrest⟩

theorem clone_ids :
    ∀ k : Nat,
      (∀ (n : Node) (b : Nat), sizeOf n < k →
        b ≤ (cloneNode n b).2.1 ∧
        (∀ i ∈ idsOf (cloneNode n b).1, b ≤ i ∧ i < (cloneNode n b).2.1) ∧
        (idsOf (cloneNode n b).1).Nodup) ∧
      (∀ (ns : List Node) (b : Nat), sizeOf ns < k →
        b ≤ (cloneList ns b).2.1 ∧
        (∀ i ∈ idsOfL (cloneList ns b).1, b ≤ i ∧ i < (cloneList ns b).2.1) ∧
        (idsOfL (cloneList ns b).1).Nodup) := by
  intro k
  induction k with
  | zero => exact ⟨fun n b h => absurd h (Nat.not_lt_zero _),
      fun ns b h => absurd h (Nat.not_lt_zero _)⟩
  | succ k ih =>
    obtain ⟨ihn, ihl⟩ := ih
    constructor
    · intro n b hsz
      cases n with
      | var v =>
        simp only [cloneNode, idsOf]
        refine ⟨by omega, ?_, by simp⟩
        intro i hi; simp at hi; omega
      | varRef r vp p =>
        simp only [cloneNode, idsOf]
        refine ⟨by omega, ?_, by simp⟩
        intro i hi; simp at hi; omega
      | cellInline nid =>
        simp only [cloneNode, idsOf]
        refine ⟨by omega, ?_, by simp⟩
        intro i hi; simp at hi; omega
      | active => simp only [cloneNode, idsOf]; exact ⟨Nat.le_refl _, by simp, by simp⟩
      | cell c pins =>
        have hch : sizeOf pins < k := by simp at hsz; omega
        obtain ⟨h1, h2, h3⟩ := ihl pins b hch
        rcases hcl : cloneList pins b with ⟨ch', rest⟩
        obtain ⟨b', m⟩ := rest
        simp only [hcl] at h1 h2 h3
        simp only [cloneNode, hcl, idsOf]
        exact ⟨h1, h2, h3⟩
      | classNode cn ms =>
        have hch : sizeOf ms < k := by simp at hsz; omega
        obtain ⟨h1, h2, h3⟩ := ihl ms b hch
        rcases hcl : cloneList ms b with ⟨ch', rest⟩
        obtain ⟨b', m⟩ := rest
        simp only [hcl] at h1 h2 h3
        simp only [cloneNode, hcl, idsOf]
        exact ⟨h1, h2, h3⟩
      | scopeName ch =>
        have hch : sizeOf ch < k := by simp at hsz; omega
        obtain ⟨h1, h2, h3⟩ := ihl ch b hch
        rcases hcl : cloneList ch b with ⟨ch', rest⟩
        obtain ⟨b', m⟩ := rest
        simp only [hcl] at h1 h2 h3
        simp only [cloneNode, hcl, idsOf]
        exact ⟨h1, h2, h3⟩
      | ftaskRef a p t ch =>
        have hch : sizeOf ch < k := by simp at hsz; omega
        obtain ⟨h1, h2, h3⟩ := ihl ch b hch
        rcases hcl : cloneList ch b with ⟨ch', rest⟩
        obtain ⟨b', m⟩ := rest
        simp only [hcl] at h1 h2 h3
        simp only [cloneNode, hcl, idsOf]
        exact ⟨h1, h2, h3⟩
      | modportFTaskRef f ch =>
        have hch : sizeOf ch < k := by simp at hsz; omega
        obtain ⟨h1, h2, h3⟩ := ihl ch b hch
        rcases hcl : cloneList ch b with ⟨ch', rest⟩
        obtain ⟨b', m⟩ := rest
        simp only [hcl] at h1 h2 h3
        simp only [cloneNode, hcl, idsOf]
        exact ⟨h1, h2, h3⟩
      | other ch =>
        have hch : sizeOf ch < k := by simp at hsz; omega
        obtain ⟨h1, h2, h3⟩ := ihl ch b hch
        rcases hcl : cloneList ch b with ⟨ch', rest⟩
        obtain ⟨b', m⟩ := rest
        simp only [hcl] at h1 h2 h3
        simp only [cloneNode, hcl, idsOf]
        exact ⟨h1, h2, h3⟩
      | varXRef r vp ch =>
        have hch : sizeOf ch < k := by simp at hsz; omega
        obtain ⟨h1, h2, h3⟩ := ihl ch (b + 1) hch
        rcases hcl : cloneList ch (b + 1) with ⟨ch', rest⟩
        obtain ⟨b', m⟩ := rest
        simp only [hcl] at h1 h2 h3
        simp only [cloneNode, hcl, idsOf]
        refine ⟨by omega, ?_, ?_⟩
        · intro i hi
          rcases List.mem_cons.mp hi with hi | hi
          · omega
          · have := h2 i hi; omega
        · rw [List.nodup_cons]
          refine ⟨fun hb => ?_, h3⟩
          have := h2 b hb; omega
      | procedure nid ch =>
        have hch : sizeOf ch < k := by simp at hsz; omega
        obtain ⟨h1, h2, h3⟩ := ihl ch (b + 1) hch
        rcases hcl : cloneList ch (b + 1) with ⟨ch', rest⟩
        obtain ⟨b', m⟩ := rest
        simp only [hcl] at h1 h2 h3
        simp only [cloneNode, hcl, idsOf]
        refine ⟨by omega, ?_, ?_⟩
        · intro i hi
          rcases List.mem_cons.mp hi with hi | hi
          · omega
          · have := h2 i hi; omega
        · rw [List.nodup_cons]
          refine ⟨fun hb => ?_, h3⟩
          have := h2 b hb; omega
      | assignAlias nid ch =>
        have hch : sizeOf ch < k := by simp at hsz; omega
        obtain ⟨h1, h2, h3⟩ := ihl ch (b + 1) hch
        rcases hcl : cloneList ch (b + 1) with ⟨ch', rest⟩
        obtain ⟨b', m⟩ := rest
        simp only [hcl] at h1 h2 h3
        simp only [cloneNode, hcl, idsOf]
        refine ⟨by omega, ?_, ?_⟩
        · intro i hi
          rcases List.mem_cons.mp hi with hi | hi
          · omega
          · have := h2 i hi; omega
        · rw [List.nodup_cons]
          refine ⟨fun hb => ?_, h3⟩
          have := h2 b hb; omega
      | assignVarScope nid ch =>
        have hch : sizeOf ch < k := by simp at hsz; omega
        obtain ⟨h1, h2, h3⟩ := ihl ch (b + 1) hch
        rcases hcl : cloneList ch (b + 1) with ⟨ch', rest⟩
        obtain ⟨b', m⟩ := rest
        simp only [hcl] at h1 h2 h3
        simp only [cloneNode, hcl, idsOf]
        refine ⟨by omega, ?_, ?_⟩
        · intro i hi
          rcases List.mem_cons.mp hi with hi | hi
          · omega
          · have := h2 i hi; omega
        · rw [List.nodup_cons]
          refine ⟨fun hb => ?_, h3⟩
          have := h2 b hb; omega
      | assignW nid ch =>
        have hch : sizeOf ch < k := by simp at hsz; omega
        obtain ⟨h1, h2, h3⟩ := ihl ch (b + 1) hch
        rcases hcl : cloneList ch (b + 1) with ⟨ch', rest⟩
        obtain ⟨b', m⟩ := rest
        simp only [hcl] at h1 h2 h3
        simp only [cloneNode, hcl, idsOf]
        refine ⟨by omega, ?_, ?_⟩
        · intro i hi
          rcases List.mem_cons.mp hi with hi | hi
          · omega
          · have := h2 i hi; omega
        · rw [List.nodup_cons]
          refine ⟨fun hb => ?_, h3⟩
          have := h2 b hb; omega
      | alwaysPublic nid ch =>
        have hch : sizeOf ch < k := by simp at hsz; omega
        obtain ⟨h1, h2, h3⟩ := ihl ch (b + 1) hch
        rcases hcl : cloneList ch (b + 1) with ⟨ch', rest⟩
        obtain ⟨b', m⟩ := rest
        simp only [hcl] at h1 h2 h3
        simp only [cloneNode, hcl, idsOf]
        refine ⟨by omega, ?_, ?_⟩
        · intro i hi
          rcases List.mem_cons.mp hi with hi | hi
          · omega
          · have := h2 i hi; omega
        · rw [List.nodup_cons]
          refine ⟨fun hb => ?_, h3⟩
          have := h2 b hb; omega
      | coverToggle nid ch =>
        have hch : sizeOf ch < k := by simp at hsz; omega
        obtain ⟨h1, h2, h3⟩ := ihl ch (b + 1) hch
        rcases hcl : cloneList ch (b + 1) with ⟨ch', rest⟩
        obtain ⟨b', m⟩ := rest
        simp only [hcl] at h1 h2 h3
        simp only [cloneNode, hcl, idsOf]
        refine ⟨by omega, ?_, ?_⟩
        · intro i hi
          rcases List.mem_cons.mp hi with hi | hi
          · omega
          · have := h2 i hi; omega
        · rw [List.nodup_cons]
          refine ⟨fun hb => ?_, h3⟩
          have := h2 b hb; omega
      | cfunc nid ch =>
        have hch : sizeOf ch < k := by simp at hsz; omega
        obtain ⟨h1, h2, h3⟩ := ihl ch (b + 1) hch
        rcases hcl : cloneList ch (b + 1) with ⟨ch', rest⟩
        obtain ⟨b', m⟩ := rest
        simp only [hcl] at h1 h2 h3
        simp only [cloneNode, hcl, idsOf]
        refine ⟨by omega, ?_, ?_⟩
        · intro i hi
          rcases List.mem_cons.mp hi with hi | hi
          · omega
          · have := h2 i hi; omega
        · rw [List.nodup_cons]
          refine ⟨fun hb => ?_, h3⟩
          have := h2 b hb; omega
      | ftask nid im iv io ch =>
        have hch : sizeOf ch < k := by simp at hsz; omega
        obtain ⟨h1, h2, h3⟩ := ihl ch (b + 1) hch
        rcases hcl : cloneList ch (b + 1) with ⟨ch', rest⟩
        obtain ⟨b', m⟩ := rest
        simp only [hcl] at h1 h2 h3
        simp only [cloneNode, hcl, idsOf]
        refine ⟨by omega, ?_, ?_⟩
        · intro i hi
          rcases List.mem_cons.mp hi with hi | hi
          · omega
          · have := h2 i hi; omega
        · rw [List.nodup_cons]
          refine ⟨fun hb => ?_, h3⟩
          have := h2 b hb; omega
      | scopeNode sid ch =>
        have hch : sizeOf ch < k := by simp at hsz; omega
        obtain ⟨h1, h2, h3⟩ := ihl ch (b + 1) hch
        rcases hcl : cloneList ch (b + 1) with ⟨ch', rest⟩
        obtain ⟨b', m⟩ := rest
        simp only [hcl] at h1 h2 h3
        simp only [cloneNode, hcl, idsOf]
        refine ⟨by omega, ?_, ?_⟩
        · intro i hi
          rcases List.mem_cons.mp hi with hi | hi
          · omega
          · have := h2 i hi; omega
        · rw [List.nodup_cons]
          refine ⟨fun hb => ?_, h3⟩
          have := h2 b hb; omega
    · intro ns b hsz
      cases ns with
      | nil => simp only [cloneList, idsOfL]; exact ⟨Nat.le_refl _, by simp, by simp⟩
      | cons n rest =>
        have hn : sizeOf n < k := by simp at hsz; omega
        have hr : sizeOf rest < k := by simp at hsz; omega
        obtain ⟨h1, h2, h3⟩ := ihn n b hn
        rcases hcn : cloneNode n b with ⟨n', prest⟩
        obtain ⟨b', m1⟩ := prest
        simp only [hcn] at h1 h2 h3
        obtain ⟨g1, g2, g3⟩ := ihl rest b' hr
        rcases hcr : cloneList rest b' with ⟨ns', qrest⟩
        obtain ⟨b'', m2⟩ := qrest
        simp only [hcr] at g1 g2 g3
        simp only [cloneList, hcn, hcr, idsOfL]
        refine ⟨by omega, ?_, ?_⟩
        · intro i hi
          rcases List.mem_append.mp hi with hi | hi
          · have := h2 i hi; omega
          · have := g2 i hi; omega
        · rw [List.nodup_append]
          refine ⟨h3, g3, ?_⟩
          intro a ha hb
          have := h2 a ha
          have := g2 a hb
          omega

theorem relink_ids :
    ∀ k : Nat,
      (∀ (m : List (Nat × Nat)) (n : Node), sizeOf n < k →
        idsOf (relinkNode m n) = idsOf n) ∧
      (∀ (m : List (Nat × Nat)) (ns : List Node), sizeOf ns < k →
        idsOfL (relinkList m ns) = idsOfL ns) := by
  intro k
  induction k with
  | zero => exact ⟨fun m n h => absurd h (Nat.not_lt_zero _),
      fun m ns h => absurd h (Nat.not_lt_zero _)⟩
  | succ k ih =>
    obtain ⟨ihn, ihl⟩ := ih
    constructor
    · intro m n hsz
      cases n with
      | varRef r vp p =>
        cases vp with
        | none => simp [relinkNode, idsOf]
        | some v =>
          cases h : lookupA v.varId m <;> simp [relinkNode, idsOf, h]
      | var v => simp [relinkNode, idsOf]
      | active => simp [relinkNode, idsOf]
      | cellInline nid => simp [relinkNode, idsOf]
      | cell c pins =>
        have : sizeOf pins < k := by simp at hsz; omega
        simp [relinkNode, idsOf, ihl m pins this]
      | classNode cn ms =>
        have : sizeOf ms < k := by simp at hsz; omega
        simp [relinkNode, idsOf, ihl m ms this]
      | scopeName ch =>
        have : sizeOf ch < k := by simp at hsz; omega
        simp [relinkNode, idsOf, ihl m ch this]
      | ftaskRef a p t ch =>
        have : sizeOf ch < k := by simp at hsz; omega
        simp [relinkNode, idsOf, ihl m ch this]
      | modportFTaskRef f ch =>
        have : sizeOf ch < k := by simp at hsz; omega
        simp [relinkNode, idsOf, ihl m ch this]
      | other ch =>
        have : sizeOf ch < k := by simp at hsz; omega
        simp [relinkNode, idsOf, ihl m ch this]
      | varXRef r vp ch =>
        have : sizeOf ch < k := by simp at hsz; omega
        simp [relinkNode, idsOf, ihl m ch this]
      | procedure nid ch =>
        have : sizeOf ch < k := by simp at hsz; omega
        simp [relinkNode, idsOf, ihl m ch this]
      | assignAlias nid ch =>
        have : sizeOf ch < k := by simp at hsz; omega
        simp [relinkNode, idsOf, ihl m ch this]
      | assignVarScope nid ch =>
        have : sizeOf ch < k := by simp at hsz; omega
        simp [relinkNode, idsOf, ihl m ch this]
      | assignW nid ch =>
        have : sizeOf ch < k := by simp at hsz; omega
        simp [relinkNode, idsOf, ihl m ch this]
      | alwaysPublic nid ch =>
        have : sizeOf ch < k := by simp at hsz; omega
        simp [relinkNode, idsOf, ihl m ch this]
      | coverToggle nid ch =>
        have : sizeOf ch < k := by simp at hsz; omega
        simp [relinkNode, idsOf, ihl m ch this]
      | cfunc nid ch =>
        have : sizeOf ch < k := by simp at hsz; omega
        simp [relinkNode, idsOf, ihl m ch this]
      | ftask nid im iv io ch =>
        have : sizeOf ch < k := by simp at hsz; omega
        simp [relinkNode, idsOf, ihl m ch this]
      | scopeNode sid ch =>
        have : sizeOf ch < k := by simp at hsz; omega
        simp [relinkNode, idsOf, ihl m ch this]
    · intro m ns hsz
      cases ns with
      | nil => simp [relinkList, idsOfL]
      | cons n rest =>
        have h1 : sizeOf n < k := by simp at hsz; omega
        have h2 : sizeOf rest < k := by simp at hsz; omega
        simp [relinkList, idsOfL, ihn m n h1, ihl m rest h2]

theorem cloneTree_ids (n : Node) (b : Nat) :
    b ≤ (cloneTree n b).2 ∧
    (∀ i ∈ idsOf (cloneTree n b).1, b ≤ i ∧ i < (cloneTree n b).2) ∧
    (idsOf (cloneTree n b).1).Nodup := by
  obtain ⟨h1, h2, h3⟩ := (clone_ids (sizeOf n + 1)).1 n b (Nat.lt_succ_self _)
  unfold cloneTree
  rcases hcn : cloneNode n b with ⟨n', prest⟩
  obtain ⟨b', m⟩ := prest
  simp only [hcn] at h1 h2 h3
  have hre := (relink_ids (sizeOf n' + 1)).1 m n' (Nat.lt_succ_self _)
  simp only [hre]
  exact ⟨h1, h2, h3⟩

theorem children_ids {n : Node} : ∀ i ∈ idsOfL (childrenOf n), i ∈ idsOf n := by
  cases n <;> intro i hi <;> simp [childrenOf, idsOf] at hi ⊢ <;> tauto

theorem children_ids_nodup {n : Node} (h : (idsOf n).Nodup) :
    (idsOfL (childrenOf n)).Nodup := by
  cases n <;> simp [childrenOf, idsOf] at h ⊢ <;> tauto

theorem SInv_irrel {cfg : VConfig} {s : BState} (h : SInv cfg s)
    (u1 : List Nat) (u2 : List (Nat × Nat)) (ul : List Nat)
    (ap : List (Nat × Node)) (ak : List (Nat × AttachKind))
    (cf : List (Nat × Nat)) (ci : List (Nat × Option Nat)) (sp : List String)
    (ue : List String) :
    SInv cfg { s with user1 := u1, user2 := u2, unlinked := ul, activeps := ap,
                      attachedScopes := ak, cfuncScopes := cf, cellInlines := ci,
                      scopeNamePfxs := sp, userErrors := ue } :=
  ⟨h.vsBound, h.scBound, h.vsIdsND, h.keysND, h.mapLink, h.nameOK, h.traceOK,
   h.clockOK, h.boundNone, h.wlNoIface, h.pkgND, h.pkgLink⟩

theorem SInv_addScope {cfg : VConfig} {s : BState} (h : SInv cfg s)
    {sc : ScopeRec} (hsid : sc.sid = s.nextId)
    (hname : ScNameOK (s.scopes ++ [sc]) sc) :
    SInv cfg { s with nextId := s.nextId + 1, scopes := s.scopes ++ [sc] } := by
  refine ⟨?_, ?_, h.vsIdsND, h.keysND, h.mapLink, ?_, ?_, h.clockOK,
    h.boundNone, h.wlNoIface, h.pkgND, ?_⟩
  · intro r hr
    have := h.vsBound r hr
    simp only
    omega
  · intro sc' hsc'
    rcases List.mem_append.mp hsc' with hold | hnew
    · have := h.scBound sc' hold
      simp only
      omega
    · simp at hnew
      subst hnew
      simp only
      omega
  · intro sc' hsc'
    rcases List.mem_append.mp hsc' with hold | hnew
    · exact ScNameOK_mono (h.nameOK sc' hold)
    · simp at hnew
      subst hnew
      exact hname
  · intro r hr
    obtain ⟨sc', hmem, hrest⟩ := h.traceOK r hr
    exact ⟨sc', List.mem_append_left _ hmem, hrest⟩
  · intro p hp
    obtain ⟨sc', hmem, hrest⟩ := h.pkgLink p hp
    exact ⟨sc', List.mem_append_left _ hmem, hrest⟩

theorem SInv_pkg {cfg : VConfig} {s : BState} (h : SInv cfg s) {p sid : Nat}
    (hlink : ∃ sc ∈ s.scopes, sc.sid = sid ∧ sc.modId = some p ∧
      sc.fromClass = none) :
    SInv cfg { s with packageScopes := ainsert p sid s.packageScopes } := by
  refine ⟨h.vsBound, h.scBound, h.vsIdsND, h.keysND, h.mapLink, h.nameOK,
    h.traceOK, h.clockOK, h.boundNone, h.wlNoIface, ?_, ?_⟩
  · exact ainsert_keys_nodup h.pkgND
  · intro q hq
    rcases mem_ainsert hq with hold | hnew
    · exact h.pkgLink q hold
    · subst hnew
      exact hlink

theorem Post_refl (j : Job) (s : BState) : Post j s s :=
  ⟨Nat.le_refl _, ⟨[], by simp⟩, ⟨[], by simp, by simp⟩, rfl⟩

theorem exec_list_cons (cfg : VConfig) (nl : Netlist) (fuel : Nat) (n : Node)
    (ns : List Node) (ctx : Ctx) (s : BState) :
    exec cfg nl (fuel + 1) (.list (n :: ns) ctx) s =
      if skipNode n s then exec cfg nl fuel (.list ns ctx) s
      else
        exec cfg nl fuel (.stmt n ctx) s >>= fun s1 =>
          exec cfg nl fuel (.list ns ctx) s1 := by
  cases n <;> simp only [exec, skipNode] <;>
    first
      | rfl
      | (rename_i nid _ _ _ _
         by_cases hu : nid ∈ s.unlinked <;>
           simp [hu, bind, Except.bind])

theorem exec_cells_cons (cfg : VConfig) (nl : Netlist) (fuel : Nat) (n : Node)
    (ns : List Node) (ctx : Ctx) (s : BState) :
    exec cfg nl (fuel + 1) (.cells (n :: ns) ctx) s =
      match cellOf n with
      | some c =>
        (match c.modp with
         | none => .error "Unlinked mod"
         | some mid =>
           match findMod nl mid with
           | none => .error "Unlinked mod"
           | some m2 =>
             exec cfg nl fuel
               (.mod m2
                 { ctx with aboveCellp := some c, aboveScopep := ctx.scopep })
               s) >>= fun s1 =>
          exec cfg nl fuel (.cells ns ctx) s1
      | none => exec cfg nl fuel (.cells ns ctx) s := by
  cases n <;> simp only [exec, cellOf]
  case cell c pins =>
    cases hm : c.modp with
    | none => simp [bind, Except.bind]
    | some mid => cases hf : findMod nl mid <;> simp [hf, bind, Except.bind]

theorem SInv_nextLe {cfg : VConfig} {s : BState} (h : SInv cfg s) {n : Nat}
    (hn : s.nextId ≤ n) : SInv cfg { s with nextId := n } := by
  refine ⟨?_, ?_, h.vsIdsND, h.keysND, h.mapLink, h.nameOK, h.traceOK,
    h.clockOK, h.boundNone, h.wlNoIface, h.pkgND, h.pkgLink⟩
  · intro r hr
    have := h.vsBound r hr
    simp only
    omega
  · intro sc hsc
    have := h.scBound sc hsc
    simp only
    omega

theorem SInv_newVS {cfg : VConfig} {s : BState} (hinv : SInv cfg s) {v : Var}
    {sid : Nat} {ac : Option CellInfo}
    (hkey : (v.varId, sid) ∉ vsKeys s) (hvb : v.varId < s.nextId)
    (hsc : ∃ sc ∈ s.scopes, sc.sid = sid ∧ sc.aboveCell = ac) :
    SInv cfg { s with
      nextId := s.nextId + 1,
      createdVS := s.createdVS ++
        [VarScopeRec.mk s.nextId v.varId sid (!cellNoTrace ac)
          (sname s sid ++ "." ++ v.name)],
      user1 := v.varId :: s.user1 } := by
  obtain ⟨sc0, hsc0m, hsc0s, hsc0c⟩ := hsc
  have hsidb : sid < s.nextId := hsc0s ▸ hinv.scBound sc0 hsc0m
  refine ⟨?_, ?_, ?_, ?_, ?_, hinv.nameOK, ?_, ?_, hinv.boundNone,
    hinv.wlNoIface, hinv.pkgND, hinv.pkgLink⟩
  · intro r hr
    rcases List.mem_append.mp hr with hold | hnew
    · have := hinv.vsBound r hold
      simp only
      omega
    · simp at hnew
      subst hnew
      simp only
      omega
  · intro sc hscm
    have := hinv.scBound sc hscm
    simp only
    omega
  · simp only [List.map_append, List.map_cons, List.map_nil]
    rw [List.nodup_append]
    refine ⟨hinv.vsIdsND, List.nodup_singleton _, ?_⟩
    intro a ha hb
    simp at hb
    subst hb
    rcases List.mem_map.mp ha with ⟨r, hr, hrv⟩
    have := hinv.vsBound r hr
    omega
  · unfold vsKeys at hkey ⊢
    simp only [List.map_append, List.map_cons, List.map_nil]
    rw [List.nodup_append]
    refine ⟨hinv.keysND, List.nodup_singleton _, ?_⟩
    intro a ha hb
    simp at hb
    subst hb
    exact hkey ha
  · intro p hp
    obtain ⟨r, hr, hrest⟩ := hinv.mapLink p hp
    exact ⟨r, List.mem_append_left _ hr, hrest⟩
  · intro r hr
    rcases List.mem_append.mp hr with hold | hnew
    · exact hinv.traceOK r hold
    · simp at hnew
      subst hnew
      refine ⟨sc0, hsc0m, hsc0s, ?_⟩
      simp [hsc0c]
  · intro p hp
    obtain ⟨r, hr, hrest⟩ := hinv.clockOK p hp
    exact ⟨r, List.mem_append_left _ hr, hrest⟩

theorem SInv_clk {cfg : VConfig} {s : BState} (hinv : SInv cfg s) {vid : Nat}
    {a : VVarAttrClocker}
    (hwit : ∃ r ∈ s.createdVS, r.varId = vid ∧
      ((a = VVarAttrClocker.CLOCKER_YES ∧ cfg.isClocker r.prettyName = true) ∨
       (a = VVarAttrClocker.CLOCKER_NO ∧ cfg.isNoClocker r.prettyName = true))) :
    SInv cfg { s with attrClocker := aset vid a s.attrClocker } := by
  refine ⟨hinv.vsBound, hinv.scBound, hinv.vsIdsND, hinv.keysND, hinv.mapLink,
    hinv.nameOK, hinv.traceOK, ?_, hinv.boundNone, hinv.wlNoIface, hinv.pkgND,
    hinv.pkgLink⟩
  intro p hp
  rcases mem_aset hp with hnew | hold
  · subst hnew
    exact hwit
  · exact hinv.clockOK p hold

theorem SInv_vmap {cfg : VConfig} {s : BState} (hinv : SInv cfg s)
    {k : Nat × Nat} {vs : Nat}
    (hwit : ∃ r ∈ s.createdVS, r.varId = k.1 ∧ r.sid = k.2 ∧ r.vsId = vs) :
    SInv cfg { s with varScopes := ainsert k vs s.varScopes } := by
  refine ⟨hinv.vsBound, hinv.scBound, hinv.vsIdsND, hinv.keysND, ?_,
    hinv.nameOK, hinv.traceOK, hinv.clockOK, hinv.boundNone, hinv.wlNoIface,
    hinv.pkgND, hinv.pkgLink⟩
  intro p hp
  rcases mem_ainsert hp with hold | hnew
  · exact hinv.mapLink p hold
  · subst hnew
    exact hwit

theorem SInv_boundSet {cfg : VConfig} {s : BState} (hinv : SInv cfg s)
    {rid : Nat} : SInv cfg { s with boundRefs := aset rid none s.boundRefs } := by
  refine ⟨hinv.vsBound, hinv.scBound, hinv.vsIdsND, hinv.keysND, hinv.mapLink,
    hinv.nameOK, hinv.traceOK, hinv.clockOK, ?_, hinv.wlNoIface, hinv.pkgND,
    hinv.pkgLink⟩
  intro p hp
  rcases mem_aset hp with hnew | hold
  · subst hnew; rfl
  · exact hinv.boundNone p hold

theorem SInv_wlAdd {cfg : VConfig} {s : BState} (hinv : SInv cfg s)
    {e : RefScope} (hif : e.varp.isIfaceRef = false) :
    SInv cfg { s with varRefScopes := sinsert e s.varRefScopes } := by
  refine ⟨hinv.vsBound, hinv.scBound, hinv.vsIdsND, hinv.keysND, hinv.mapLink,
    hinv.nameOK, hinv.traceOK, hinv.clockOK, hinv.boundNone, ?_, hinv.pkgND,
    hinv.pkgLink⟩
  intro e' he'
  rcases mem_sinsert he' with hnew | hold
  · subst hnew; exact hif
  · exact hinv.wlNoIface e' hold

theorem PostC_glue {cOld : Option Nat} {i i2 : List Nat} {s s2 s' : BState}
    (h : PostC cOld s2.nextId i2 s2 s')
    (hnx : s.nextId ≤ s2.nextId)
    (hsc : ∃ t, s2.scopes = s.scopes ++ t)
    (hcv : s2.createdVS = s.createdVS)
    (hres : s2.resolved = s.resolved)
    (hids : ∀ x ∈ i2, x ∈ i ∨ s.nextId ≤ x) :
    PostC cOld s.nextId i s s' := by
  obtain ⟨h1, ⟨l2, hl2⟩, ⟨l3, hl3, hok⟩, h4⟩ := h
  obtain ⟨t, ht⟩ := hsc
  refine ⟨Nat.le_trans hnx h1, ⟨t ++ l2, by rw [hl2, ht, List.append_assoc]⟩,
    ⟨l3, by rw [hl3, hcv], ?_⟩, by rw [h4, hres]⟩
  intro r hr
  have := hok r hr
  unfold newEntryOK at this ⊢
  rcases this with ⟨hc, hv⟩ | hb
  · refine Or.inl ⟨hc, ?_⟩
    rcases hv with hv | hv
    · rcases hids r.varId hv with hv' | hv'
      · exact Or.inl hv'
      · exact Or.inr hv'
    · exact Or.inr (by omega)
  · exact Or.inr (by omega)

theorem PostC_glue_newScope {cOld : Option Nat} {i i2 : List Nat}
    {sidv : Nat} {s s2 s' : BState}
    (h : PostC (some sidv) s2.nextId i2 s2 s')
    (hnx : s.nextId ≤ s2.nextId) (hsid : s.nextId ≤ sidv)
    (hsc : ∃ t, s2.scopes = s.scopes ++ t)
    (hcv : s2.createdVS = s.createdVS)
    (hres : s2.resolved = s.resolved) :
    PostC cOld s.nextId i s s' := by
  obtain ⟨h1, ⟨l2, hl2⟩, ⟨l3, hl3, hok⟩, h4⟩ := h
  obtain ⟨t, ht⟩ := hsc
  refine ⟨Nat.le_trans hnx h1, ⟨t ++ l2, by rw [hl2, ht, List.append_assoc]⟩,
    ⟨l3, by rw [hl3, hcv], ?_⟩, by rw [h4, hres]⟩
  intro r hr
  have := hok r hr
  unfold newEntryOK at this ⊢
  rcases this with ⟨hc, _⟩ | hb
  · have : sidv = r.sid := by injection hc
    exact Or.inr (by omega)
  · exact Or.inr (by omega)

theorem PostC_glue_none {cOld : Option Nat} {i i2 : List Nat}
    {s s2 s' : BState}
    (h : PostC none s2.nextId i2 s2 s')
    (hnx : s.nextId ≤ s2.nextId)
    (hsc : ∃ t, s2.scopes = s.scopes ++ t)
    (hcv : s2.createdVS = s.createdVS)
    (hres : s2.resolved = s.resolved) :
    PostC cOld s.nextId i s s' := by
  obtain ⟨h1, ⟨l2, hl2⟩, ⟨l3, hl3, hok⟩, h4⟩ := h
  obtain ⟨t, ht⟩ := hsc
  refine ⟨Nat.le_trans hnx h1, ⟨t ++ l2, by rw [hl2, ht, List.append_assoc]⟩,
    ⟨l3, by rw [hl3, hcv], ?_⟩, by rw [h4, hres]⟩
  intro r hr
  have := hok r hr
  unfold newEntryOK at this ⊢
  rcases this with ⟨hc, _⟩ | hb
  · cases hc
  · exact Or.inr (by omega)

theorem PostC_none_self {c : Option Nat} {b : Nat} {i : List Nat}
    {s : BState} {s' : BState} (h : s' = s) : PostC c b i s s' := by
  subst h
  exact ⟨Nat.le_refl _, ⟨[], by simp⟩, ⟨[], by simp, by simp⟩, rfl⟩

theorem exec_mod (cfg : VConfig) (nl : Netlist) (fuel : Nat) (m : VModule)
    (ctx : Ctx) (s : BState) :
    exec cfg nl (fuel + 1) (.mod m ctx) s =
      (let scopename :=
        match ctx.aboveScopep with
        | none => "TOP"
        | some ps => sname s ps ++ "." ++ cellNameD ctx.aboveCellp
       let sB :=
        if m.isPackage then
          { s with
            user1 := ([] : List Nat),
            nextId := s.nextId + 1,
            scopes := s.scopes ++ [ScopeRec.mk s.nextId scopename (some m.modId) ctx.aboveScopep ctx.aboveCellp none],
            packageScopes := ainsert m.modId s.nextId s.packageScopes }
        else
          { s with
            user1 := ([] : List Nat),
            nextId := s.nextId + 1,
            scopes := s.scopes ++ [ScopeRec.mk s.nextId scopename (some m.modId) ctx.aboveScopep ctx.aboveCellp none] }
       exec cfg nl fuel (.cells m.stmts { ctx with scopep := some s.nextId })
           sB >>=
         fun s1 =>
           exec cfg nl fuel
             (.list m.stmts
               { modId := some m.modId, scopep := some s.nextId,
                 aboveCellp := ctx.aboveCellp, aboveScopep := ctx.aboveScopep })
             { s1 with
               user1 := ([] : List Nat),
               attachedScopes := s1.attachedScopes ++ [(s.nextId, if m.isTop then AttachKind.viaTopScope else AttachKind.asModuleStmt)] }) := by
  by_cases hp : m.isPackage <;> simp [exec, hp]

theorem PostC_sub {c : Option Nat} {b : Nat} {i i' : List Nat}
    {s s' : BState} (h : PostC c b i s s') (hsub : ∀ x ∈ i, x ∈ i') :
    PostC c b i' s s' := by
  obtain ⟨h1, h2, ⟨l, hl, hok⟩, h4⟩ := h
  refine ⟨h1, h2, ⟨l, hl, ?_⟩, h4⟩
  intro r hr
  have := hok r hr
  unfold newEntryOK at this ⊢
  rcases this with ⟨hc, hv⟩ | hb
  · refine Or.inl ⟨hc, ?_⟩
    rcases hv with hv | hv
    · exact Or.inl (hsub _ hv)
    · exact Or.inr hv
  · exact Or.inr hb

theorem PostC_trans' {c : Option Nat} {i : List Nat} {s s1 s' : BState}
    (h1 : PostC c s.nextId i s s1) (h2 : PostC c s1.nextId i s1 s') :
    PostC c s.nextId i s s' := by
  obtain ⟨ha1, ⟨t1, ht1⟩, ⟨l1, hl1, hok1⟩, hr1⟩ := h1
  obtain ⟨ha2, ⟨t2, ht2⟩, ⟨l2, hl2, hok2⟩, hr2⟩ := h2
  refine ⟨Nat.le_trans ha1 ha2,
    ⟨t1 ++ t2, by rw [ht2, ht1, List.append_assoc]⟩,
    ⟨l1 ++ l2, by rw [hl2, hl1, List.append_assoc], ?_⟩,
    by rw [hr2, hr1]⟩
  intro r hr
  rcases List.mem_append.mp hr with hr | hr
  · exact hok1 r hr
  · have := hok2 r hr
    unfold newEntryOK at this ⊢
    rcases this with ⟨hc, hv⟩ | hb
    · refine Or.inl ⟨hc, ?_⟩
      rcases hv with hv | hv
      · exact Or.inl hv
      · exact Or.inr (by omega)
    · exact Or.inr (by omega)

theorem vsKeys_lt {cfg : VConfig} {s : BState} (hinv : SInv cfg s)
    {p : Nat × Nat} (hp : p ∈ vsKeys s) : p.1 < s.nextId ∧ p.2 < s.nextId := by
  unfold vsKeys at hp
  obtain ⟨r, hr, hrp⟩ := List.mem_map.mp hp
  have := hinv.vsBound r hr
  subst hrp
  exact ⟨this.1, this.2.1⟩

theorem Post_eqCore {j : Job} {s s' : BState}
    (h1 : s'.nextId = s.nextId) (h2 : s'.scopes = s.scopes)
    (h3 : s'.createdVS = s.createdVS) (h4 : s'.resolved = s.resolved) :
    Post j s s' := by
  unfold Post
  exact ⟨Nat.le_of_eq h1.symm, ⟨[], by simp [h2]⟩, ⟨[], by simp [h3], by simp⟩, h4⟩

theorem PostC_mod_assemble {s sB s1 sC s' : BState} {sidv : Nat}
    {i2 : List Nat} {cOld : Option Nat} {i : List Nat}
    (h1 : PostC none sB.nextId ([] : List Nat) sB s1)
    (h2 : PostC (some sidv) sC.nextId i2 sC s')
    (hBn : s.nextId ≤ sB.nextId) (hsid : s.nextId ≤ sidv)
    (hBsc : ∃ t, sB.scopes = s.scopes ++ t)
    (hBcv : sB.createdVS = s.createdVS) (hBres : sB.resolved = s.resolved)
    (hCsc : sC.scopes = s1.scopes) (hCcv : sC.createdVS = s1.createdVS)
    (hCn : sC.nextId = s1.nextId) (hCres : sC.resolved = s1.resolved) :
    PostC cOld s.nextId i s s' := by
  obtain ⟨ha1, ⟨t1, ht1⟩, ⟨l1, hl1, hok1⟩, hr1⟩ := h1
  obtain ⟨ha2, ⟨t2, ht2⟩, ⟨l2, hl2, hok2⟩, hr2⟩ := h2
  obtain ⟨t0, ht0⟩ := hBsc
  refine ⟨by omega, ?_, ?_, ?_⟩
  · exact ⟨t0 ++ (t1 ++ t2),
      by rw [ht2, hCsc, ht1, ht0, List.append_assoc, List.append_assoc]⟩
  · refine ⟨l1 ++ l2, by rw [hl2, hCcv, hl1, hBcv, List.append_assoc], ?_⟩
    intro r hr
    unfold newEntryOK
    rcases List.mem_append.mp hr with hr | hr
    · have := hok1 r hr
      unfold newEntryOK at this
      rcases this with ⟨hc, _⟩ | hb
      · cases hc
      · exact Or.inr (by omega)
    · have := hok2 r hr
      unfold newEntryOK at this
      rcases this with ⟨hc, _⟩ | hb
      · have : sidv = r.sid := by injection hc
        exact Or.inr (by omega)
      · exact Or.inr (by omega)
  · rw [hr2, hCres, hr1, hBres]

theorem exec_master (cfg : VConfig) (nl : Netlist)
    (hnd : ∀ m ∈ nl.modules, (idsOfL m.stmts).Nodup) :
    ∀ (fuel : Nat) (j : Job) (s s' : BState),
      exec cfg nl fuel j s = .ok s' →
      SInv cfg s →
      (∀ m ∈ nl.modules, ∀ i ∈ idsOfL m.stmts, i < s.nextId) →
      JobPre nl j s →
      SInv cfg s' ∧ Post j s s' := by
  intro fuel
  induction fuel with
  | zero => intro j s s' hex _ _ _; simp [exec] at hex
  | succ fuel ih =>
    intro j s s' hex hinv hnb hpre
    cases j with
    | mod m ctx =>
      obtain ⟨hmem, habove⟩ := hpre
      have hname : ScNameOK (s.scopes ++ [ScopeRec.mk s.nextId
          (match ctx.aboveScopep with
           | none => "TOP"
           | some ps => sname s ps ++ "." ++ cellNameD ctx.aboveCellp)
          (some m.modId) ctx.aboveScopep ctx.aboveCellp none])
          (ScopeRec.mk s.nextId
            (match ctx.aboveScopep with
             | none => "TOP"
             | some ps => sname s ps ++ "." ++ cellNameD ctx.aboveCellp)
            (some m.modId) ctx.aboveScopep ctx.aboveCellp none) := by
        rcases hab : ctx.aboveScopep with _ | ps
        · unfold ScNameOK
          simp [hab]
        · unfold ScNameOK
          simp only [hab]
          obtain ⟨⟨pc0, hpc0, hpc0s⟩, hcs⟩ := habove ps hab
          obtain ⟨pc, hpcm, hpcs, hpcn⟩ := sname_spec ⟨pc0, hpc0, hpc0s⟩
          refine ⟨pc, List.mem_append_left _ hpcm, hpcs, ?_, ?_⟩
          · simp [hpcn]
          · intro _
            exact hcs
      rw [exec_mod] at hex
      simp only [bind, Except.bind] at hex
      by_cases hpkg : m.isPackage = true
      · rw [if_pos hpkg] at hex
        split at hex
        · exact absurd hex (by simp)
        · rename_i s1 heq
          have hinvB : SInv cfg { s with
              user1 := ([] : List Nat),
              nextId := s.nextId + 1,
              scopes := s.scopes ++ [ScopeRec.mk s.nextId
                (match ctx.aboveScopep with
                 | none => "TOP"
                 | some ps => sname s ps ++ "." ++ cellNameD ctx.aboveCellp)
                (some m.modId) ctx.aboveScopep ctx.aboveCellp none],
              packageScopes := ainsert m.modId s.nextId s.packageScopes } := by
            have ha := SInv_irrel hinv ([] : List Nat) s.user2 s.unlinked
              s.activeps s.attachedScopes s.cfuncScopes s.cellInlines
              s.scopeNamePfxs s.userErrors
            have hb := SInv_addScope ha rfl hname
            exact SInv_pkg hb ⟨ScopeRec.mk s.nextId
              (match ctx.aboveScopep with
               | none => "TOP"
               | some ps => sname s ps ++ "." ++ cellNameD ctx.aboveCellp)
              (some m.modId) ctx.aboveScopep ctx.aboveCellp none,
              List.mem_append_right _ (by simp), rfl, rfl, rfl⟩
          have hnbB : ∀ m' ∈ nl.modules, ∀ i ∈ idsOfL m'.stmts,
              i < s.nextId + 1 :=
            fun m' hm i hi => Nat.lt_succ_of_lt (hnb m' hm i hi)
          have hpreB : JobPre nl
              (.cells m.stmts { ctx with scopep := some s.nextId })
              { s with
                user1 := ([] : List Nat),
                nextId := s.nextId + 1,
                scopes := s.scopes ++ [ScopeRec.mk s.nextId
                  (match ctx.aboveScopep with
                   | none => "TOP"
                   | some ps => sname s ps ++ "." ++ cellNameD ctx.aboveCellp)
                  (some m.modId) ctx.aboveScopep ctx.aboveCellp none],
                packageScopes := ainsert m.modId s.nextId s.packageScopes } := by
            intro sid0 hs0
            injection hs0 with hs0
            subst hs0
            exact ⟨ScopeRec.mk s.nextId
              (match ctx.aboveScopep with
               | none => "TOP"
               | some ps => sname s ps ++ "." ++ cellNameD ctx.aboveCellp)
              (some m.modId) ctx.aboveScopep ctx.aboveCellp none,
              List.mem_append_right _ (by simp), rfl⟩
          obtain ⟨hinv1, hpost1⟩ := ih _ _ s1 heq hinvB hnbB hpreB
          unfold Post at hpost1
          simp only [jobCur, jobIds] at hpost1
          have hn1 : s.nextId + 1 ≤ s1.nextId := hpost1.1
          obtain ⟨t1, ht1⟩ := hpost1.2.1
          have hinvC := SInv_irrel hinv1 ([] : List Nat) s1.user2 s1.unlinked
            s1.activeps
            (s1.attachedScopes ++ [(s.nextId,
              if m.isTop then AttachKind.viaTopScope
              else AttachKind.asModuleStmt)])
            s1.cfuncScopes s1.cellInlines s1.scopeNamePfxs s1.userErrors
          have hnbC : ∀ m' ∈ nl.modules, ∀ i ∈ idsOfL m'.stmts,
              i < s1.nextId :=
            fun m' hm i hi => by
              have := hnb m' hm i hi
              omega
          have hpreC : JobPre nl
              (.list m.stmts
                { modId := some m.modId, scopep := some s.nextId,
                  aboveCellp := ctx.aboveCellp,
                  aboveScopep := ctx.aboveScopep })
              { s1 with
                user1 := ([] : List Nat),
                attachedScopes := s1.attachedScopes ++ [(s.nextId,
                  if m.isTop then AttachKind.viaTopScope
                  else AttachKind.asModuleStmt)] } := by
            refine ⟨?_, hnd m hmem, ?_⟩
            · intro sid0 hs0
              injection hs0 with hs0
              subst hs0
              refine ⟨ScopeRec.mk s.nextId
                (match ctx.aboveScopep with
                 | none => "TOP"
                 | some ps => sname s ps ++ "." ++ cellNameD ctx.aboveCellp)
                (some m.modId) ctx.aboveScopep ctx.aboveCellp none, ?_, rfl, rfl⟩
              have hmemB : ScopeRec.mk s.nextId
                  (match ctx.aboveScopep with
                   | none => "TOP"
                   | some ps => sname s ps ++ "." ++ cellNameD ctx.aboveCellp)
                  (some m.modId) ctx.aboveScopep ctx.aboveCellp none ∈
                  s.scopes ++ [ScopeRec.mk s.nextId
                    (match ctx.aboveScopep with
                     | none => "TOP"
                     | some ps => sname s ps ++ "." ++ cellNameD ctx.aboveCellp)
                    (some m.modId) ctx.aboveScopep ctx.aboveCellp none] :=
                List.mem_append_right _ (by simp)
              have hsC : ({ s1 with
                  user1 := ([] : List Nat),
                  attachedScopes := s1.attachedScopes ++ [(s.nextId,
                    if m.isTop then AttachKind.viaTopScope
                    else AttachKind.asModuleStmt)] } : BState).scopes =
                  (s.scopes ++ [ScopeRec.mk s.nextId
                    (match ctx.aboveScopep with
                     | none => "TOP"
                     | some ps => sname s ps ++ "." ++ cellNameD ctx.aboveCellp)
                    (some m.modId) ctx.aboveScopep ctx.aboveCellp none]) ++ t1 :=
                ht1
              rw [hsC]
              exact List.mem_append_left _ hmemB
            · intro i hi
              refine ⟨?_, ?_⟩
              · show i < s1.nextId
                have := hnb m hmem i hi
                omega
              intro csid hc hmemK
              injection hc with hc
              have hcvC : ({ s1 with
                  user1 := ([] : List Nat),
                  attachedScopes := s1.attachedScopes ++ [(s.nextId,
                    if m.isTop then AttachKind.viaTopScope
                    else AttachKind.asModuleStmt)] } : BState).createdVS =
                  s.createdVS ++ (hpost1.2.2.1.choose) := hpost1.2.2.1.choose_spec.1
              unfold vsKeys at hmemK
              rw [hcvC, List.map_append] at hmemK
              rcases List.mem_append.mp hmemK with hmemK | hmemK
              · have hlt : (i, csid).2 < s.nextId :=
                  (vsKeys_lt hinv hmemK).2
                simp at hlt
                omega
              · obtain ⟨r, hrm, hreq⟩ := List.mem_map.mp hmemK
                have hok := hpost1.2.2.1.choose_spec.2 r hrm
                unfold newEntryOK at hok
                have hsd : r.sid = csid := by
                  have := congrArg Prod.snd hreq
                  simpa using this
                rcases hok with ⟨hc2, _⟩ | hb2
                · cases hc2
                · omega
          obtain ⟨hinv', hpost2⟩ := ih _ _ s' hex hinvC hnbC hpreC
          unfold Post at hpost2 ⊢
          simp only [jobCur, jobIds] at hpost2 ⊢
          exact ⟨hinv', PostC_mod_assemble (s := s) hpost1 hpost2 (Nat.le_succ _)
            (Nat.le_refl _) ⟨[ScopeRec.mk s.nextId
              (match ctx.aboveScopep with
               | none => "TOP"
               | some ps => sname s ps ++ "." ++ cellNameD ctx.aboveCellp)
              (some m.modId) ctx.aboveScopep ctx.aboveCellp none], rfl⟩
            rfl rfl rfl rfl rfl rfl⟩
      · rw [if_neg hpkg] at hex
        split at hex
        · exact absurd hex (by simp)
        · rename_i s1 heq
          have hinvB : SInv cfg { s with
              user1 := ([] : List Nat),
              nextId := s.nextId + 1,
              scopes := s.scopes ++ [ScopeRec.mk s.nextId
                (match ctx.aboveScopep with
                 | none => "TOP"
                 | some ps => sname s ps ++ "." ++ cellNameD ctx.aboveCellp)
                (some m.modId) ctx.aboveScopep ctx.aboveCellp none] } := by
            have ha := SInv_irrel hinv ([] : List Nat) s.user2 s.unlinked
              s.activeps s.attachedScopes s.cfuncScopes s.cellInlines
              s.scopeNamePfxs s.userErrors
            exact SInv_addScope ha rfl hname
          have hnbB : ∀ m' ∈ nl.modules, ∀ i ∈ idsOfL m'.stmts,
              i < s.nextId + 1 :=
            fun m' hm i hi => Nat.lt_succ_of_lt (hnb m' hm i hi)
          have hpreB : JobPre nl
              (.cells m.stmts { ctx with scopep := some s.nextId })
              { s with
                user1 := ([] : List Nat),
                nextId := s.nextId + 1,
                scopes := s.scopes ++ [ScopeRec.mk s.nextId
                  (match ctx.aboveScopep with
                   | none => "TOP"
                   | some ps => sname s ps ++ "." ++ cellNameD ctx.aboveCellp)
                  (some m.modId) ctx.aboveScopep ctx.aboveCellp none] } := by
            intro sid0 hs0
            injection hs0 with hs0
            subst hs0
            exact ⟨ScopeRec.mk s.nextId
              (match ctx.aboveScopep with
               | none => "TOP"
               | some ps => sname s ps ++ "." ++ cellNameD ctx.aboveCellp)
              (some m.modId) ctx.aboveScopep ctx.aboveCellp none,
              List.mem_append_right _ (by simp), rfl⟩
          obtain ⟨hinv1, hpost1⟩ := ih _ _ s1 heq hinvB hnbB hpreB
          unfold Post at hpost1
          simp only [jobCur, jobIds] at hpost1
          have hn1 : s.nextId + 1 ≤ s1.nextId := hpost1.1
          obtain ⟨t1, ht1⟩ := hpost1.2.1
          have hinvC := SInv_irrel hinv1 ([] : List Nat) s1.user2 s1.unlinked
            s1.activeps
            (s1.attachedScopes ++ [(s.nextId,
              if m.isTop then AttachKind.viaTopScope
              else AttachKind.asModuleStmt)])
            s1.cfuncScopes s1.cellInlines s1.scopeNamePfxs s1.userErrors
          have hnbC : ∀ m' ∈ nl.modules, ∀ i ∈ idsOfL m'.stmts,
              i < s1.nextId :=
            fun m' hm i hi => by
              have := hnb m' hm i hi
              omega
          have hpreC : JobPre nl
              (.list m.stmts
                { modId := some m.modId, scopep := some s.nextId,
                  aboveCellp := ctx.aboveCellp,
                  aboveScopep := ctx.aboveScopep })
              { s1 with
                user1 := ([] : List Nat),
                attachedScopes := s1.attachedScopes ++ [(s.nextId,
                  if m.isTop then AttachKind.viaTopScope
                  else AttachKind.asModuleStmt)] } := by
            refine ⟨?_, hnd m hmem, ?_⟩
            · intro sid0 hs0
              injection hs0 with hs0
              subst hs0
              refine ⟨ScopeRec.mk s.nextId
                (match ctx.aboveScopep with
                 | none => "TOP"
                 | some ps => sname s ps ++ "." ++ cellNameD ctx.aboveCellp)
                (some m.modId) ctx.aboveScopep ctx.aboveCellp none, ?_, rfl, rfl⟩
              have hmemB : ScopeRec.mk s.nextId
                  (match ctx.aboveScopep with
                   | none => "TOP"
                   | some ps => sname s ps ++ "." ++ cellNameD ctx.aboveCellp)
                  (some m.modId) ctx.aboveScopep ctx.aboveCellp none ∈
                  s.scopes ++ [ScopeRec.mk s.nextId
                    (match ctx.aboveScopep with
                     | none => "TOP"
                     | some ps => sname s ps ++ "." ++ cellNameD ctx.aboveCellp)
                    (some m.modId) ctx.aboveScopep ctx.aboveCellp none] :=
                List.mem_append_right _ (by simp)
              have hsC : ({ s1 with
                  user1 := ([] : List Nat),
                  attachedScopes := s1.attachedScopes ++ [(s.nextId,
                    if m.isTop then AttachKind.viaTopScope
                    else AttachKind.asModuleStmt)] } : BState).scopes =
                  (s.scopes ++ [ScopeRec.mk s.nextId
                    (match ctx.aboveScopep with
                     | none => "TOP"
                     | some ps => sname s ps ++ "." ++ cellNameD ctx.aboveCellp)
                    (some m.modId) ctx.aboveScopep ctx.aboveCellp none]) ++ t1 :=
                ht1
              rw [hsC]
              exact List.mem_append_left _ hmemB
            · intro i hi
              refine ⟨?_, ?_⟩
              · show i < s1.nextId
                have := hnb m hmem i hi
                omega
              intro csid hc hmemK
              injection hc with hc
              have hcvC : ({ s1 with
                  user1 := ([] : List Nat),
                  attachedScopes := s1.attachedScopes ++ [(s.nextId,
                    if m.isTop then AttachKind.viaTopScope
                    else AttachKind.asModuleStmt)] } : BState).createdVS =
                  s.createdVS ++ (hpost1.2.2.1.choose) := hpost1.2.2.1.choose_spec.1
              unfold vsKeys at hmemK
              rw [hcvC, List.map_append] at hmemK
              rcases List.mem_append.mp hmemK with hmemK | hmemK
              · have hlt : (i, csid).2 < s.nextId :=
                  (vsKeys_lt hinv hmemK).2
                simp at hlt
                omega
              · obtain ⟨r, hrm, hreq⟩ := List.mem_map.mp hmemK
                have hok := hpost1.2.2.1.choose_spec.2 r hrm
                unfold newEntryOK at hok
                have hsd : r.sid = csid := by
                  have := congrArg Prod.snd hreq
                  simpa using this
                rcases hok with ⟨hc2, _⟩ | hb2
                · cases hc2
                · omega
          obtain ⟨hinv', hpost2⟩ := ih _ _ s' hex hinvC hnbC hpreC
          unfold Post at hpost2 ⊢
          simp only [jobCur, jobIds] at hpost2 ⊢
          exact ⟨hinv', PostC_mod_assemble (s := s) hpost1 hpost2 (Nat.le_succ _)
            (Nat.le_refl _) ⟨[ScopeRec.mk s.nextId
              (match ctx.aboveScopep with
               | none => "TOP"
               | some ps => sname s ps ++ "." ++ cellNameD ctx.aboveCellp)
              (some m.modId) ctx.aboveScopep ctx.aboveCellp none], rfl⟩
            rfl rfl rfl rfl rfl rfl⟩
    | stmt n ctx =>
      obtain ⟨hctx, hndids, hids⟩ := hpre
      have hblock : ∀ (n0 : Node) (u2 : List (Nat × Nat)) (ap : List (Nat × Node))
          (cf : List (Nat × Nat)) (s' : BState),
          exec cfg nl fuel (.list (childrenOf (cloneTree n0 s.nextId).1) ctx)
            { s with
              nextId := (cloneTree n0 s.nextId).2,
              user2 := u2,
              activeps := ap,
              cfuncScopes := cf } = .ok s' →
          SInv cfg s' ∧ PostC ctx.scopep s.nextId (idsOf n0) s s' := by
        intro n0 u2 ap cf s'' hex2
        rcases hcl : cloneTree n0 s.nextId with ⟨cln, b2⟩
        simp only [hcl] at hex2
        obtain ⟨hb, hbnd, hndc⟩ := cloneTree_ids n0 s.nextId
        simp only [hcl] at hb hbnd hndc
        have hinv2 : SInv cfg
            { s with
              nextId := b2,
              user2 := u2,
              activeps := ap,
              cfuncScopes := cf } :=
          SInv_irrel (SInv_nextLe hinv hb) s.user1 u2 s.unlinked ap
            s.attachedScopes cf s.cellInlines s.scopeNamePfxs s.userErrors
        have hnb2 : ∀ m ∈ nl.modules, ∀ i ∈ idsOfL m.stmts, i < b2 :=
          fun m hm i hi => Nat.lt_of_lt_of_le (hnb m hm i hi) hb
        have hpre2 : JobPre nl (.list (childrenOf cln) ctx)
            { s with
              nextId := b2,
              user2 := u2,
              activeps := ap,
              cfuncScopes := cf } := by
          refine ⟨?_, children_ids_nodup hndc, ?_⟩
          · intro sid0 hs0
            obtain ⟨sc, hm, hrest⟩ := hctx sid0 hs0
            exact ⟨sc, hm, hrest⟩
          · intro i hi
            have hii := hbnd i (children_ids _ hi)
            refine ⟨hii.2, ?_⟩
            intro csid hc hmem
            have hlt : i < s.nextId := (vsKeys_lt hinv hmem).1
            omega
        obtain ⟨hinv', hpost⟩ := ih _ _ s'' hex2 hinv2 hnb2 hpre2
        refine ⟨hinv', ?_⟩
        unfold Post at hpost
        simp only [jobCur, jobIds] at hpost
        exact PostC_glue hpost hb ⟨[], by simp⟩ rfl rfl
          (fun x hx => Or.inr (hbnd x (children_ids _ hx)).1)
      cases n with
      | active => simp [exec] at hex
      | scopeNode sid ch =>
        simp only [exec] at hex
        injection hex with h
        subst h
        exact ⟨hinv, Post_refl _ _⟩
      | cellInline nid =>
        simp only [exec] at hex
        injection hex with h
        subst h
        refine ⟨SInv_irrel hinv s.user1 s.user2 s.unlinked s.activeps
          s.attachedScopes s.cfuncScopes
          (s.cellInlines ++ [(nid, ctx.scopep)]) s.scopeNamePfxs s.userErrors,
          Post_eqCore rfl rfl rfl rfl⟩
      | varRef rid vp pkg =>
        cases vp with
        | none => simp [exec] at hex
        | some v =>
          simp only [exec] at hex
          by_cases hif : v.isIfaceRef = true
          · rw [if_pos hif] at hex
            injection hex with h
            subst h
            exact ⟨SInv_boundSet hinv, Post_eqCore rfl rfl rfl rfl⟩
          · rw [if_neg hif] at hex
            injection hex with h
            subst h
            exact ⟨SInv_wlAdd hinv (by simpa using hif),
              Post_eqCore rfl rfl rfl rfl⟩
      | cell c pins =>
        simp only [exec] at hex
        exact ih (.list pins ctx) s s' hex hinv hnb ⟨hctx, hndids, hids⟩
      | other ch =>
        simp only [exec] at hex
        exact ih (.list ch ctx) s s' hex hinv hnb ⟨hctx, hndids, hids⟩
      | ftaskRef a p t ch =>
        simp only [exec] at hex
        exact ih (.list ch ctx) s s' hex hinv hnb ⟨hctx, hndids, hids⟩
      | modportFTaskRef f ch =>
        simp only [exec] at hex
        exact ih (.list ch ctx) s s' hex hinv hnb ⟨hctx, hndids, hids⟩
      | varXRef r vp ch =>
        simp only [exec] at hex
        simp only [idsOf] at hndids hids
        obtain ⟨hinv', hpost⟩ := ih (.list ch ctx) s s' hex hinv hnb
          ⟨hctx, hndids.of_cons, fun i hi => hids i (List.mem_cons_of_mem _ hi)⟩
        refine ⟨hinv', ?_⟩
        unfold Post at hpost ⊢
        simp only [jobCur, jobIds] at hpost ⊢
        refine PostC_sub hpost ?_
        intro x hx
        simp only [idsOf]
        exact List.mem_cons_of_mem _ hx
      | scopeName ch =>
        simp only [exec] at hex
        cases hscope : ctx.scopep with
        | none => simp only [hscope] at hex; simp at hex
        | some sid =>
          simp only [hscope] at hex
          have hinv2 := SInv_irrel hinv s.user1 s.user2 s.unlinked s.activeps
            s.attachedScopes s.cfuncScopes s.cellInlines
            (s.scopeNamePfxs ++ ["__DOT__" ++ sname s sid]) s.userErrors
          obtain ⟨hinv', hpost⟩ := ih (.list ch ctx) _ s' hex hinv2 hnb
            ⟨hctx, hndids, hids⟩
          exact ⟨hinv', hpost⟩
      | var v =>
        simp only [exec] at hex
        by_cases hu : v.varId ∈ s.user1
        · rw [if_pos hu] at hex
          injection hex with h
          subst h
          exact ⟨hinv, Post_refl _ _⟩
        · rw [if_neg hu] at hex
          cases hscope : ctx.scopep with
          | none => simp only [hscope] at hex; simp at hex
          | some sid =>
            simp only [hscope] at hex
            have hkey : (v.varId, sid) ∉ vsKeys s :=
              fun hmem => (hids v.varId (by simp [idsOf])).2 sid hscope hmem
            have hvb : v.varId < s.nextId := (hids v.varId (by simp [idsOf])).1
            have hsc := hctx sid hscope
            have h1 := SInv_newVS hinv hkey hvb hsc
            have hwitN : VarScopeRec.mk s.nextId v.varId sid
                (!cellNoTrace ctx.aboveCellp)
                (sname s sid ++ "." ++ v.name) ∈
                s.createdVS ++ [VarScopeRec.mk s.nextId v.varId sid
                  (!cellNoTrace ctx.aboveCellp)
                  (sname s sid ++ "." ++ v.name)] :=
              List.mem_append_right _ (by simp)
            by_cases hclk : cfg.isClocker (sname s sid ++ "." ++ v.name) = true
            all_goals by_cases hnclk :
              cfg.isNoClocker (sname s sid ++ "." ++ v.name) = true
            all_goals first
              | (rw [if_pos hclk, if_pos hnclk] at hex)
              | (rw [if_pos hclk, if_neg hnclk] at hex)
              | (rw [if_neg hclk, if_pos hnclk] at hex)
              | (rw [if_neg hclk, if_neg hnclk] at hex)
            all_goals injection hex with h
            all_goals subst h
            all_goals refine ⟨?_, ?_⟩
            · exact SInv_vmap (SInv_clk (SInv_clk h1
                ⟨_, hwitN, rfl, Or.inl ⟨rfl, hclk⟩⟩)
                ⟨_, hwitN, rfl, Or.inr ⟨rfl, hnclk⟩⟩)
                ⟨_, hwitN, rfl, rfl, rfl⟩
            · exact ⟨Nat.le_succ _, ⟨[], by simp⟩,
                ⟨[VarScopeRec.mk s.nextId v.varId sid
                  (!cellNoTrace ctx.aboveCellp)
                  (sname s sid ++ "." ++ v.name)], rfl,
                  fun r hr => by
                    simp at hr
                    subst hr
                    exact Or.inl ⟨hscope, Or.inl (by simp [jobIds, idsOf])⟩⟩, rfl⟩
            · exact SInv_vmap (SInv_clk h1
                ⟨_, hwitN, rfl, Or.inl ⟨rfl, hclk⟩⟩)
                ⟨_, hwitN, rfl, rfl, rfl⟩
            · exact ⟨Nat.le_succ _, ⟨[], by simp⟩,
                ⟨[VarScopeRec.mk s.nextId v.varId sid
                  (!cellNoTrace ctx.aboveCellp)
                  (sname s sid ++ "." ++ v.name)], rfl,
                  fun r hr => by
                    simp at hr
                    subst hr
                    exact Or.inl ⟨hscope, Or.inl (by simp [jobIds, idsOf])⟩⟩, rfl⟩
            · exact SInv_vmap (SInv_clk h1
                ⟨_, hwitN, rfl, Or.inr ⟨rfl, hnclk⟩⟩)
                ⟨_, hwitN, rfl, rfl, rfl⟩
            · exact ⟨Nat.le_succ _, ⟨[], by simp⟩,
                ⟨[VarScopeRec.mk s.nextId v.varId sid
                  (!cellNoTrace ctx.aboveCellp)
                  (sname s sid ++ "." ++ v.name)], rfl,
                  fun r hr => by
                    simp at hr
                    subst hr
                    exact Or.inl ⟨hscope, Or.inl (by simp [jobIds, idsOf])⟩⟩, rfl⟩
            · exact SInv_vmap h1 ⟨_, hwitN, rfl, rfl, rfl⟩
            · exact ⟨Nat.le_succ _, ⟨[], by simp⟩,
                ⟨[VarScopeRec.mk s.nextId v.varId sid
                  (!cellNoTrace ctx.aboveCellp)
                  (sname s sid ++ "." ++ v.name)], rfl,
                  fun r hr => by
                    simp at hr
                    subst hr
                    exact Or.inl ⟨hscope, Or.inl (by simp [jobIds, idsOf])⟩⟩, rfl⟩
      | procedure nid ch =>
        simp only [exec, withChildren] at hex
        cases hscope : ctx.scopep with
        | none => simp only [hscope] at hex; simp at hex
        | some sid =>
          simp only [hscope] at hex
          exact hblock (.procedure nid ch) _ _ _ s' hex
      | assignAlias nid ch =>
        simp only [exec, withChildren] at hex
        cases hscope : ctx.scopep with
        | none => simp only [hscope] at hex; simp at hex
        | some sid =>
          simp only [hscope] at hex
          exact hblock (.assignAlias nid ch) _ _ _ s' hex
      | assignVarScope nid ch =>
        simp only [exec, withChildren] at hex
        cases hscope : ctx.scopep with
        | none => simp only [hscope] at hex; simp at hex
        | some sid =>
          simp only [hscope] at hex
          exact hblock (.assignVarScope nid ch) _ _ _ s' hex
      | assignW nid ch =>
        simp only [exec, withChildren] at hex
        cases hscope : ctx.scopep with
        | none => simp only [hscope] at hex; simp at hex
        | some sid =>
          simp only [hscope] at hex
          exact hblock (.assignW nid ch) _ _ _ s' hex
      | alwaysPublic nid ch =>
        simp only [exec, withChildren] at hex
        cases hscope : ctx.scopep with
        | none => simp only [hscope] at hex; simp at hex
        | some sid =>
          simp only [hscope] at hex
          exact hblock (.alwaysPublic nid ch) _ _ _ s' hex
      | coverToggle nid ch =>
        simp only [exec, withChildren] at hex
        cases hscope : ctx.scopep with
        | none => simp only [hscope] at hex; simp at hex
        | some sid =>
          simp only [hscope] at hex
          exact hblock (.coverToggle nid ch) _ _ _ s' hex
      | cfunc nid ch =>
        simp only [exec] at hex
        cases hscope : ctx.scopep with
        | none => simp only [hscope] at hex; simp at hex
        | some sid =>
          simp only [hscope] at hex
          exact hblock (.cfunc nid ch) _ _ _ s' hex
      | ftask nid im iv io ch =>
        simp only [exec] at hex
        cases hscope : ctx.scopep with
        | none => simp only [hscope] at hex; simp at hex
        | some sid =>
          simp only [hscope] at hex
          by_cases hcm : classMethodFlag im iv io = true
          · rw [if_pos hcm] at hex
            have hinv2 := SInv_irrel hinv s.user1 (aset nid nid s.user2)
              (nid :: s.unlinked)
              (s.activeps ++ [(sid, Node.ftask nid im iv io ch)])
              s.attachedScopes s.cfuncScopes s.cellInlines s.scopeNamePfxs
              s.userErrors
            simp only [idsOf] at hndids hids
            have hpre2 : JobPre nl (.list ch ctx)
                { s with
                  user2 := aset nid nid s.user2,
                  unlinked := nid :: s.unlinked,
                  activeps := s.activeps ++ [(sid, Node.ftask nid im iv io ch)] } :=
              ⟨hctx, hndids.of_cons,
                fun i hi => hids i (List.mem_cons_of_mem _ hi)⟩
            obtain ⟨hinv', hpost⟩ := ih _ _ s' hex hinv2 hnb hpre2
            refine ⟨hinv', ?_⟩
            unfold Post at hpost ⊢
            simp only [jobCur, jobIds] at hpost ⊢
            refine PostC_glue hpost (Nat.le_refl _) ⟨[], by simp⟩ rfl rfl ?_
            intro x hx
            refine Or.inl ?_
            simp only [idsOf]
            exact List.mem_cons_of_mem _ hx
          · rw [if_neg hcm] at hex
            have := hblock (.ftask nid im iv io ch) _ _ _ s' hex
            exact this
      | classNode cn members =>
        simp only [exec] at hex
        have hname : ScNameOK (s.scopes ++ [ScopeRec.mk s.nextId
            (match ctx.scopep with
             | none => "TOP"
             | some ps => sname s ps ++ "." ++ cn) ctx.modId ctx.scopep
            ctx.aboveCellp (some cn)])
            (ScopeRec.mk s.nextId
              (match ctx.scopep with
               | none => "TOP"
               | some ps => sname s ps ++ "." ++ cn) ctx.modId ctx.scopep
              ctx.aboveCellp (some cn)) := by
          rcases hab : ctx.scopep with _ | ps
          · unfold ScNameOK
            simp [hab]
          · unfold ScNameOK
            simp only [hab]
            obtain ⟨sc0, hsc0, hsc0s, _⟩ := hctx ps hab
            obtain ⟨pc, hpcm, hpcs, hpcn⟩ := sname_spec ⟨sc0, hsc0, hsc0s⟩
            refine ⟨pc, List.mem_append_left _ hpcm, hpcs, ?_, ?_⟩
            · simp [hpcn]
            · intro hcontra
              cases hcontra
        have hinv2 : SInv cfg { s with
            user1 := ([] : List Nat),
            nextId := s.nextId + 1,
            scopes := s.scopes ++ [ScopeRec.mk s.nextId
              (match ctx.scopep with
               | none => "TOP"
               | some ps => sname s ps ++ "." ++ cn) ctx.modId ctx.scopep
              ctx.aboveCellp (some cn)],
            attachedScopes := s.attachedScopes ++
              [(s.nextId, AttachKind.asClassMember)] } := by
          have ha := SInv_irrel hinv ([] : List Nat) s.user2 s.unlinked
            s.activeps s.attachedScopes s.cfuncScopes s.cellInlines
            s.scopeNamePfxs s.userErrors
          have hb := SInv_addScope ha rfl hname
          exact SInv_irrel hb ([] : List Nat) s.user2 s.unlinked s.activeps
            (s.attachedScopes ++ [(s.nextId, AttachKind.asClassMember)])
            s.cfuncScopes s.cellInlines s.scopeNamePfxs s.userErrors
        have hnb2 : ∀ m ∈ nl.modules, ∀ i ∈ idsOfL m.stmts, i < s.nextId + 1 :=
          fun m hm i hi => Nat.lt_succ_of_lt (hnb m hm i hi)
        have hpre2 : JobPre nl (.list members
            { modId := ctx.modId, scopep := some s.nextId,
              aboveCellp := ctx.aboveCellp, aboveScopep := ctx.scopep })
            { s with
              user1 := ([] : List Nat),
              nextId := s.nextId + 1,
              scopes := s.scopes ++ [ScopeRec.mk s.nextId
                (match ctx.scopep with
                 | none => "TOP"
                 | some ps => sname s ps ++ "." ++ cn) ctx.modId ctx.scopep
                ctx.aboveCellp (some cn)],
              attachedScopes := s.attachedScopes ++
                [(s.nextId, AttachKind.asClassMember)] } := by
          refine ⟨?_, hndids, ?_⟩
          · intro sid0 hs0
            injection hs0 with hs0
            subst hs0
            exact ⟨ScopeRec.mk s.nextId
              (match ctx.scopep with
               | none => "TOP"
               | some ps => sname s ps ++ "." ++ cn) ctx.modId ctx.scopep
              ctx.aboveCellp (some cn),
              List.mem_append_right _ (by simp), rfl, rfl⟩
          · intro i hi
            refine ⟨Nat.lt_succ_of_lt (hids i hi).1, ?_⟩
            intro csid hc hmem
            injection hc with hc
            have hlt : (i, csid).2 < s.nextId := (vsKeys_lt hinv hmem).2
            simp at hlt
            omega
        obtain ⟨hinv', hpost⟩ := ih _ _ s' hex hinv2 hnb2 hpre2
        refine ⟨hinv', ?_⟩
        unfold Post at hpost ⊢
        simp only [jobCur, jobIds] at hpost ⊢
        exact PostC_glue_newScope hpost (Nat.le_succ _) (Nat.le_refl _)
          ⟨[ScopeRec.mk s.nextId
            (match ctx.scopep with
             | none => "TOP"
             | some ps => sname s ps ++ "." ++ cn) ctx.modId ctx.scopep
            ctx.aboveCellp (some cn)], rfl⟩ rfl rfl
    | cells ns ctx =>
      cases ns with
      | nil =>
        simp only [exec] at hex
        injection hex with h
        subst h
        exact ⟨hinv, Post_refl _ _⟩
      | cons n rest =>
        rw [exec_cells_cons] at hex
        cases hcell : cellOf n with
        | none =>
          simp only [hcell] at hex
          obtain ⟨hinv', hpost⟩ := ih (.cells rest ctx) s s' hex hinv hnb hpre
          exact ⟨hinv', hpost⟩
        | some c =>
          simp only [hcell] at hex
          rcases hmp : c.modp with _ | mid
          · simp only [hmp] at hex; simp [bind, Except.bind] at hex
          · simp only [hmp] at hex
            rcases hfm : findMod nl mid with _ | m2
            · simp only [hfm] at hex; simp [bind, Except.bind] at hex
            · simp only [hfm] at hex
              rcases hs1 : exec cfg nl fuel
                  (.mod m2 { ctx with aboveCellp := some c, aboveScopep := ctx.scopep }) s with e | s1
              · rw [hs1] at hex; simp [bind, Except.bind] at hex
              · rw [hs1] at hex
                simp only [bind, Except.bind] at hex
                have hpreM : JobPre nl
                    (.mod m2 { ctx with aboveCellp := some c, aboveScopep := ctx.scopep }) s := by
                  refine ⟨findMod_mem hfm, ?_⟩
                  intro ps hps
                  exact ⟨hpre ps hps, rfl⟩
                obtain ⟨hinv1, hpost1⟩ := ih _ s s1 hs1 hinv hnb hpreM
                unfold Post at hpost1
                simp only [jobCur, jobIds] at hpost1
                obtain ⟨hn1, ⟨lsc, hlsc⟩, hcv1, hres1⟩ := hpost1
                have hnb1 : ∀ m ∈ nl.modules, ∀ i ∈ idsOfL m.stmts, i < s1.nextId :=
                  fun m hm i hi => Nat.lt_of_lt_of_le (hnb m hm i hi) hn1
                have hpreR : JobPre nl (.cells rest ctx) s1 := by
                  intro sid hsid
                  obtain ⟨pc, hpcm, hpcs⟩ := hpre sid hsid
                  exact ⟨pc, by rw [hlsc]; exact List.mem_append_left _ hpcm, hpcs⟩
                obtain ⟨hinv', hpost2⟩ := ih (.cells rest ctx) s1 s' hex hinv1 hnb1 hpreR
                unfold Post at hpost2 ⊢
                simp only [jobCur, jobIds] at hpost2 ⊢
                exact ⟨hinv', PostC_trans' ⟨hn1, ⟨lsc, hlsc⟩, hcv1, hres1⟩ hpost2⟩
    | list ns ctx =>
      cases ns with
      | nil =>
        simp only [exec] at hex
        injection hex with h
        subst h
        exact ⟨hinv, Post_refl _ _⟩
      | cons n rest =>
        obtain ⟨hctx, hndids, hids⟩ := hpre
        simp only [idsOfL] at hndids hids
        rw [List.nodup_append] at hndids
        obtain ⟨hndN, hndR, hdisj⟩ := hndids
        rw [exec_list_cons] at hex
        by_cases hskip : skipNode n s = true
        · rw [if_pos hskip] at hex
          have hpre' : JobPre nl (.list rest ctx) s := by
            refine ⟨hctx, hndR, ?_⟩
            intro i hi
            exact hids i (List.mem_append_right _ hi)
          obtain ⟨hinv', hpost⟩ := ih (.list rest ctx) s s' hex hinv hnb hpre'
          refine ⟨hinv', ?_⟩
          unfold Post at hpost ⊢
          simp only [jobCur, jobIds] at hpost ⊢
          refine PostC_sub hpost ?_
          intro x hx
          simp only [idsOfL]
          exact List.mem_append_right _ hx
        · rw [if_neg hskip] at hex
          rcases hs1 : exec cfg nl fuel (.stmt n ctx) s with e | s1
          · rw [hs1] at hex; simp [bind, Except.bind] at hex
          · rw [hs1] at hex
            simp only [bind, Except.bind] at hex
            have hpreN : JobPre nl (.stmt n ctx) s := by
              refine ⟨hctx, hndN, ?_⟩
              intro i hi
              exact hids i (List.mem_append_left _ hi)
            obtain ⟨hinv1, hpost1⟩ := ih (.stmt n ctx) s s1 hs1 hinv hnb hpreN
            unfold Post at hpost1
            simp only [jobCur, jobIds] at hpost1
            obtain ⟨hn1, ⟨lsc, hlsc⟩, ⟨l1, hl1, hok1⟩, hres1⟩ := hpost1
            have hnb1 : ∀ m ∈ nl.modules, ∀ i ∈ idsOfL m.stmts, i < s1.nextId :=
              fun m hm i hi => Nat.lt_of_lt_of_le (hnb m hm i hi) hn1
            have hpreR : JobPre nl (.list rest ctx) s1 := by
              refine ⟨?_, hndR, ?_⟩
              · intro sid hsid
                obtain ⟨sc, hscm, hrest⟩ := hctx sid hsid
                exact ⟨sc, by rw [hlsc]; exact List.mem_append_left _ hscm, hrest⟩
              · intro i hi
                have hb := (hids i (List.mem_append_right _ hi)).1
                refine ⟨Nat.lt_of_lt_of_le hb hn1, ?_⟩
                intro csid hc hmem
                have hkeys : vsKeys s1 =
                    vsKeys s ++ l1.map (fun r => (r.varId, r.sid)) := by
                  unfold vsKeys
                  rw [hl1, List.map_append]
                rw [hkeys] at hmem
                rcases List.mem_append.mp hmem with hmem | hmem
                · exact (hids i (List.mem_append_right _ hi)).2 csid hc hmem
                · obtain ⟨r, hrm, hreq⟩ := List.mem_map.mp hmem
                  have hok := hok1 r hrm
                  unfold newEntryOK at hok
                  have hv : r.varId = i := by
                    have := congrArg Prod.fst hreq
                    simpa using this
                  have hsd : r.sid = csid := by
                    have := congrArg Prod.snd hreq
                    simpa using this
                  rcases hok with ⟨hc2, hvar⟩ | hb2
                  · rcases hvar with hvar | hvar
                    · rw [hv] at hvar
                      exact hdisj hvar hi
                    · omega
                  · obtain ⟨sc, hscm, hscs, _⟩ := hctx csid hc
                    have := hinv.scBound sc hscm
                    omega
            obtain ⟨hinv', hpost2⟩ := ih (.list rest ctx) s1 s' hex hinv1 hnb1 hpreR
            unfold Post at hpost2 ⊢
            simp only [jobCur, jobIds] at hpost2 ⊢
            refine ⟨hinv', PostC_trans'
              (PostC_sub ⟨hn1, ⟨lsc, hlsc⟩, ⟨l1, hl1, hok1⟩, hres1⟩ ?_)
              (PostC_sub hpost2 ?_)⟩
            · intro x hx
              simp only [idsOfL]
              exact List.mem_append_left _ hx
            · intro x hx
              simp only [idsOfL]
              exact List.mem_append_right _ hx

theorem resolveOne_spec {s s1 : BState} {e : RefScope}
    (h : resolveOne s e = .ok s1) :
    s1.varScopes = s.varScopes ∧ s1.packageScopes = s.packageScopes ∧
    s1.createdVS = s.createdVS ∧ s1.scopes = s.scopes ∧
    s1.varRefScopes = s.varRefScopes ∧ s1.attrClocker = s.attrClocker ∧
    ∃ vs, resolveVS s.packageScopes s.varScopes e = some vs ∧
      s1.resolved = s.resolved ++ [(e, vs)] := by
  unfold resolveOne at h
  split at h
  · exact absurd h (by simp)
  · rename_i scopep heq1
    split at h
    · exact absurd h (by simp)
    · rename_i sc heq2
      split at h
      · exact absurd h (by simp)
      · rename_i vs heq3
        injection h with h
        subst h
        refine ⟨rfl, rfl, rfl, rfl, rfl, rfl, vs, ?_, rfl⟩
        unfold resolveVS
        rw [heq1]
        exact heq3

theorem cleanupFold_spec : ∀ (wl : List RefScope) (s s' : BState),
    List.foldlM resolveOne s wl = .ok s' →
    s'.varScopes = s.varScopes ∧ s'.packageScopes = s.packageScopes ∧
    s'.createdVS = s.createdVS ∧ s'.scopes = s.scopes ∧
    s'.varRefScopes = s.varRefScopes ∧ s'.attrClocker = s.attrClocker ∧
    ∃ l, s'.resolved = s.resolved ++ l ∧
      ∀ p ∈ l, p.1 ∈ wl ∧
        resolveVS s.packageScopes s.varScopes p.1 = some p.2 := by
  intro wl
  induction wl with
  | nil =>
    intro s s' h
    simp only [List.foldlM] at h
    injection h with h
    subst h
    exact ⟨rfl, rfl, rfl, rfl, rfl, rfl, [], by simp, by simp⟩
  | cons e rest ihw =>
    intro s s' h
    simp only [List.foldlM, bind, Except.bind] at h
    cases h1 : resolveOne s e with
    | error err => rw [h1] at h; simp at h
    | ok s1 =>
      rw [h1] at h
      obtain ⟨hv1, hp1, hc1, hs1, hw1, ha1, vs, hres, hrl⟩ := resolveOne_spec h1
      obtain ⟨hv2, hp2, hc2, hs2, hw2, ha2, l, hl, hok⟩ := ihw s1 s' h
      refine ⟨by rw [hv2, hv1], by rw [hp2, hp1], by rw [hc2, hc1],
        by rw [hs2, hs1], by rw [hw2, hw1], by rw [ha2, ha1],
        (e, vs) :: l, ?_, ?_⟩
      · rw [hl, hrl]
        simp
      · intro p hp
        rcases List.mem_cons.mp hp with hp | hp
        · subst hp
          exact ⟨List.mem_cons_self _ _, hres⟩
        · obtain ⟨hmem, hres2⟩ := hok p hp
          refine ⟨List.mem_cons_of_mem _ hmem, ?_⟩
          rw [hp1, hv1] at hres2
          exact hres2

theorem cleanupVarRefs_spec {s s' : BState} (h : cleanupVarRefs s = .ok s') :
    s'.varScopes = s.varScopes ∧ s'.packageScopes = s.packageScopes ∧
    s'.createdVS = s.createdVS ∧ s'.scopes = s.scopes ∧
    s'.varRefScopes = s.varRefScopes ∧ s'.attrClocker = s.attrClocker ∧
    ∃ l, s'.resolved = s.resolved ++ l ∧
      ∀ p ∈ l, p.1 ∈ s.varRefScopes ∧
        resolveVS s.packageScopes s.varScopes p.1 = some p.2 :=
  cleanupFold_spec s.varRefScopes s s' h

theorem scopeVisitorRun_spec {cfg : VConfig} {nl : Netlist} {n0 fuel : Nat}
    {s' : BState} (hwf : NetlistWF nl n0)
    (h : scopeVisitorRun cfg nl n0 fuel = .ok s') : RunFacts cfg s' := by
  unfold scopeVisitorRun at h
  split at h
  · injection h with h
    subst h
    constructor <;> simp [vsKeys, initState]
  · rename_i m hm
    simp only [bind, Except.bind] at h
    cases hex : exec cfg nl fuel (.mod m ⟨none, none, none, none⟩)
        (initState n0) with
    | error e => rw [hex] at h; simp at h
    | ok sMid =>
      rw [hex] at h
      have hinv0 : SInv cfg (initState n0) := by
        constructor <;> simp [initState, vsKeys]
      have hnb0 : ∀ m' ∈ nl.modules, ∀ i ∈ idsOfL m'.stmts,
          i < (initState n0).nextId := hwf.2
      have hpre0 : JobPre nl (.mod m ⟨none, none, none, none⟩)
          (initState n0) :=
        ⟨topModulep_mem hm, fun ps hps => by cases hps⟩
      obtain ⟨hinvM, hpostM⟩ :=
        exec_master cfg nl hwf.1 fuel _ _ _ hex hinv0 hnb0 hpre0
      have hresM : sMid.resolved = [] := hpostM.2.2.2
      obtain ⟨hv, hp, hc, hs, hw, ha, l, hl, hok⟩ := cleanupVarRefs_spec h
      refine ⟨?_, ?_, ?_, ?_, ?_, ?_, ?_, ?_, ?_, ?_⟩
      · unfold vsKeys
        rw [hc]
        exact hinvM.keysND
      · rw [hc]
        exact hinvM.vsIdsND
      · intro p hp2
        rw [hv] at hp2
        obtain ⟨r, hr, hrest⟩ := hinvM.mapLink p hp2
        exact ⟨r, by rw [hc]; exact hr, hrest⟩
      · intro sc hsc
        rw [hs] at hsc ⊢
        exact hinvM.nameOK sc hsc
      · intro r hr
        rw [hc] at hr
        obtain ⟨sc, hscm, hrest⟩ := hinvM.traceOK r hr
        exact ⟨sc, by rw [hs]; exact hscm, hrest⟩
      · intro p hp2
        rw [ha] at hp2
        obtain ⟨r, hr, hrest⟩ := hinvM.clockOK p hp2
        exact ⟨r, by rw [hc]; exact hr, hrest⟩
      · intro e he
        rw [hw] at he
        exact hinvM.wlNoIface e he
      · rw [hp]
        exact hinvM.pkgND
      · intro p hp2
        rw [hp] at hp2
        obtain ⟨sc, hscm, hrest⟩ := hinvM.pkgLink p hp2
        exact ⟨sc, by rw [hs]; exact hscm, hrest⟩
      · intro p hp2
        rw [hl, hresM] at hp2
        simp only [List.nil_append] at hp2
        obtain ⟨hmem, hres2⟩ := hok p hp2
        refine ⟨by rw [hw]; exact hmem, ?_⟩
        rw [hp, hv]
        exact hres2

theorem nodup_map_ne {α β : Type} {f : α → β} {l : List α}
    (h : (l.map f).Nodup) {a b : α} (ha : a ∈ l) (hb : b ∈ l) (hne : a ≠ b) :
    f a ≠ f b :=
  fun heq => hne (List.inj_on_of_nodup_map h ha hb heq)

/-- C1: for every variable declaration and every scope, at most one binding is
created (the creation record has duplicate-free (declaration, scope) keys,
and a repeat visit of a declaration already marked in the current scope
population is a no-op); all references resolved with the same target, package
qualifier and scope yield the same binding; and bindings of one declaration
under distinct scopes are distinct objects, so no resolution without a
package qualifier can yield a binding created under a different scope. -/
theorem C1_binding_unique_per_var_scope
    (cfg : VConfig) (nl : Netlist) (n0 fuel : Nat) (s' : BState)
    (hwf : NetlistWF nl n0)
    (h : scopeVisitorRun cfg nl n0 fuel = .ok s') :
    (vsKeys s').Nodup ∧
    (∀ (fuel2 : Nat) (ctx : Ctx) (s : BState) (v : Var),
      v.varId ∈ s.user1 →
      exec cfg nl (fuel2 + 1) (.stmt (.var v) ctx) s = .ok s) ∧
    (∀ p1 ∈ s'.resolved, ∀ p2 ∈ s'.resolved,
      p1.1.varp = p2.1.varp → p1.1.packagep = p2.1.packagep →
      p1.1.scopep = p2.1.scopep → p1.2 = p2.2) ∧
    (∀ r1 ∈ s'.createdVS, ∀ r2 ∈ s'.createdVS,
      r1.varId = r2.varId → r1.sid ≠ r2.sid → r1.vsId ≠ r2.vsId) ∧
    (∀ p ∈ s'.resolved, p.1.packagep = none →
      ∀ r ∈ s'.createdVS, r.varId = p.1.varp.varId →
      p.1.scopep ≠ some r.sid → p.2 ≠ r.vsId) := by
  have hf := scopeVisitorRun_spec hwf h
  refine ⟨hf.keysND, ?_, ?_, ?_, ?_⟩
  · intro fuel2 ctx s v hu
    simp [exec, hu]
  · intro p1 hp1 p2 hp2 hvarp hpkg hscope
    have h1 := (hf.resolvedOK p1 hp1).2
    have h2 := (hf.resolvedOK p2 hp2).2
    unfold resolveVS at h1 h2
    rw [hvarp, hpkg, hscope] at h1
    rw [h1] at h2
    injection h2
  · intro r1 hr1 r2 hr2 hvid hsid
    exact nodup_map_ne hf.vsIdsND hr1 hr2
      (fun heq => hsid (by rw [heq]))
  · intro p hp hpkg r hr hvid hscope heq
    have h1 := (hf.resolvedOK p hp).2
    unfold resolveVS at h1
    rw [hpkg] at h1
    cases hsc : p.1.scopep with
    | none => rw [hsc] at h1; simp at h1
    | some sc =>
      rw [hsc] at h1
      simp only at h1
      have hmem := lookupA_mem h1
      obtain ⟨r0, hr0, hr0v, hr0s, hr0id⟩ := hf.mapLink _ hmem
      have : r0 = r := by
        by_contra hne
        exact nodup_map_ne hf.vsIdsND hr0 hr hne (by rw [hr0id, heq])
      subst this
      apply hscope
      rw [hsc, hr0s]


set_option maxHeartbeats 1000000 in
/-- Witness for C1: the two-instance example satisfies the hypotheses, and
the theorem instantiates at it. -/
theorem C1_binding_unique_witness :
    NetlistWF exPair 100 ∧
    ((vsKeys (getOk (scopeVisitorRun exCfg exPair 100 20))).Nodup ∧
     (∀ (fuel2 : Nat) (ctx : Ctx) (s : BState) (v : Var),
       v.varId ∈ s.user1 →
       exec exCfg exPair (fuel2 + 1) (.stmt (.var v) ctx) s = .ok s) ∧
     (∀ p1 ∈ (getOk (scopeVisitorRun exCfg exPair 100 20)).resolved,
      ∀ p2 ∈ (getOk (scopeVisitorRun exCfg exPair 100 20)).resolved,
       p1.1.varp = p2.1.varp → p1.1.packagep = p2.1.packagep →
       p1.1.scopep = p2.1.scopep → p1.2 = p2.2) ∧
     (∀ r1 ∈ (getOk (scopeVisitorRun exCfg exPair 100 20)).createdVS,
      ∀ r2 ∈ (getOk (scopeVisitorRun exCfg exPair 100 20)).createdVS,
       r1.varId = r2.varId → r1.sid ≠ r2.sid → r1.vsId ≠ r2.vsId) ∧
     (∀ p ∈ (getOk (scopeVisitorRun exCfg exPair 100 20)).resolved,
       p.1.packagep = none →
       ∀ r ∈ (getOk (scopeVisitorRun exCfg exPair 100 20)).createdVS,
       r.varId = p.1.varp.varId →
       p.1.scopep ≠ some r.sid → p.2 ≠ r.vsId)) :=
  ⟨by decide,
   C1_binding_unique_per_var_scope exCfg exPair 100 20 _ (by decide) rfl⟩

/-- C2: the package-scope table has exactly one entry per package template,
each entry being a scope created for that package; every queued reference to
a package member that is not a class member is resolved through the
package's recorded scope (the referencing entry's own scope plays no part);
hence all resolutions of one package member yield one binding. -/
theorem C2_package_single_scope
    (cfg : VConfig) (nl : Netlist) (n0 fuel : Nat) (s' : BState)
    (hwf : NetlistWF nl n0)
    (h : scopeVisitorRun cfg nl n0 fuel = .ok s') :
    (s'.packageScopes.map (fun p => p.1)).Nodup ∧
    (∀ p ∈ s'.packageScopes, ∃ sc ∈ s'.scopes,
      sc.sid = p.2 ∧ sc.modId = some p.1 ∧ sc.fromClass = none) ∧
    (∀ p ∈ s'.resolved, ∀ pk, p.1.packagep = some pk →
      p.1.varp.isClassMember = false →
      ∃ psid, lookupA pk s'.packageScopes = some psid ∧
        lookupA (p.1.varp.varId, psid) s'.varScopes = some p.2) ∧
    (∀ p1 ∈ s'.resolved, ∀ p2 ∈ s'.resolved, ∀ pk,
      p1.1.packagep = some pk → p2.1.packagep = some pk →
      p1.1.varp = p2.1.varp → p1.1.varp.isClassMember = false →
      p1.2 = p2.2) := by
  have hf := scopeVisitorRun_spec hwf h
  have hres : ∀ p ∈ s'.resolved, ∀ pk, p.1.packagep = some pk →
      p.1.varp.isClassMember = false →
      ∃ psid, lookupA pk s'.packageScopes = some psid ∧
        lookupA (p.1.varp.varId, psid) s'.varScopes = some p.2 := by
    intro p hp pk hpk hcm
    have h1 := (hf.resolvedOK p hp).2
    unfold resolveVS at h1
    rw [hpk, hcm] at h1
    simp only [Bool.false_eq_true, if_false] at h1
    cases hlk : lookupA pk s'.packageScopes with
    | none => rw [hlk] at h1; simp at h1
    | some psid =>
      rw [hlk] at h1
      simp only at h1
      exact ⟨psid, rfl, h1⟩
  refine ⟨hf.pkgND, hf.pkgLink, hres, ?_⟩
  intro p1 hp1 p2 hp2 pk hpk1 hpk2 hvarp hcm
  obtain ⟨ps1, hl1, hk1⟩ := hres p1 hp1 pk hpk1 hcm
  obtain ⟨ps2, hl2, hk2⟩ := hres p2 hp2 pk hpk2 (by rw [hvarp] at hcm; exact hcm)
  rw [hl1] at hl2
  injection hl2 with hl2
  subst hl2
  rw [hvarp] at hk1
  rw [hk1] at hk2
  injection hk2

set_option maxHeartbeats 1000000 in
/-- Witness for C2: the package example satisfies the hypotheses, and the
theorem instantiates at it. -/
theorem C2_package_single_scope_witness :
    NetlistWF exPkgNl 100 ∧
    (((getOk (scopeVisitorRun exCfg exPkgNl 100 20)).packageScopes.map
        (fun p => p.1)).Nodup ∧
     (∀ p ∈ (getOk (scopeVisitorRun exCfg exPkgNl 100 20)).packageScopes,
       ∃ sc ∈ (getOk (scopeVisitorRun exCfg exPkgNl 100 20)).scopes,
         sc.sid = p.2 ∧ sc.modId = some p.1 ∧ sc.fromClass = none) ∧
     (∀ p ∈ (getOk (scopeVisitorRun exCfg exPkgNl 100 20)).resolved,
       ∀ pk, p.1.packagep = some pk →
       p.1.varp.isClassMember = false →
       ∃ psid, lookupA pk
           (getOk (scopeVisitorRun exCfg exPkgNl 100 20)).packageScopes =
           some psid ∧
         lookupA (p.1.varp.varId, psid)
           (getOk (scopeVisitorRun exCfg exPkgNl 100 20)).varScopes =
           some p.2) ∧
     (∀ p1 ∈ (getOk (scopeVisitorRun exCfg exPkgNl 100 20)).resolved,
      ∀ p2 ∈ (getOk (scopeVisitorRun exCfg exPkgNl 100 20)).resolved,
      ∀ pk, p1.1.packagep = some pk → p2.1.packagep = some pk →
       p1.1.varp = p2.1.varp → p1.1.varp.isClassMember = false →
       p1.2 = p2.2)) :=
  ⟨by decide,
   C2_package_single_scope exCfg exPkgNl 100 20 _ (by decide) rfl⟩

/-- C9: with no top-level module, the run reports the user-facing
"No top level module found" error and stops before any traversal: the result
state is exactly the initial state plus that message, so no scope, no
binding, no resolution and no reference binding exists. -/
theorem C9_no_top_module (cfg : VConfig) (nl : Netlist) (n0 fuel : Nat)
    (h : topModulep nl = none) :
    scopeVisitorRun cfg nl n0 fuel =
      .ok { initState n0 with userErrors := ["No top level module found"] } ∧
    (getOk (scopeVisitorRun cfg nl n0 fuel)).scopes = [] ∧
    (getOk (scopeVisitorRun cfg nl n0 fuel)).createdVS = [] ∧
    (getOk (scopeVisitorRun cfg nl n0 fuel)).resolved = [] ∧
    (getOk (scopeVisitorRun cfg nl n0 fuel)).boundRefs = [] := by
  unfold scopeVisitorRun
  rw [h]
  exact ⟨rfl, rfl, rfl, rfl, rfl⟩

/-- Witness for C9: the module list without a top module satisfies the
hypothesis and the theorem instantiates at it. -/
theorem C9_no_top_module_witness :
    topModulep exNlNoTop = none ∧
    (scopeVisitorRun exCfg exNlNoTop 100 20 =
      .ok { initState 100 with userErrors := ["No top level module found"] } ∧
     (getOk (scopeVisitorRun exCfg exNlNoTop 100 20)).scopes = [] ∧
     (getOk (scopeVisitorRun exCfg exNlNoTop 100 20)).createdVS = [] ∧
     (getOk (scopeVisitorRun exCfg exNlNoTop 100 20)).resolved = [] ∧
     (getOk (scopeVisitorRun exCfg exNlNoTop 100 20)).boundRefs = []) :=
  ⟨rfl, C9_no_top_module exCfg exNlNoTop 100 20 rfl⟩

/-- C10: visiting an `AstActive` node in the builder is fatal: the statement
visit returns exactly the internal error "Actives now made after scoping",
and consequently no statement list containing an active node anywhere at its
top level can complete successfully — any run over it ends in an error. -/
theorem C10_active_is_fatal (cfg : VConfig) (nl : Netlist) :
    (∀ (fuel : Nat) (ctx : Ctx) (s : BState),
      exec cfg nl (fuel + 1) (.stmt .active ctx) s =
        .error "Actives now made after scoping") ∧
    (∀ (fuel : Nat) (pre post : List Node) (ctx : Ctx) (s : BState),
      ∃ e, exec cfg nl fuel (.list (pre ++ .active :: post) ctx) s =
        .error e) := by
  refine ⟨fun fuel ctx s => rfl, ?_⟩
  intro fuel
  induction fuel with
  | zero => exact fun pre post ctx s => ⟨"recursion limit", rfl⟩
  | succ f ih =>
    intro pre post ctx s
    cases pre with
    | nil =>
      rw [List.nil_append, exec_list_cons]
      simp only [skipNode, if_false]
      cases f with
      | zero => exact ⟨"recursion limit", rfl⟩
      | succ g =>
        exact ⟨"Actives now made after scoping", rfl⟩
    | cons p pre' =>
      rw [List.cons_append, exec_list_cons]
      by_cases hsk : skipNode p s
      · rw [if_pos hsk]; exact ih pre' post ctx s
      · rw [if_neg hsk]
        cases hx : exec cfg nl f (.stmt p ctx) s with
        | error e => exact ⟨e, by simp [hx, bind, Except.bind]⟩
        | ok s1 =>
          obtain ⟨e, he⟩ := ih pre' post ctx s1
          exact ⟨e, by simp [hx, bind, Except.bind, he]⟩

/-- `cellNoTrace` unfolded: the instantiating cell exists and opted out. -/
theorem cellNoTrace_iff (oc : Option CellInfo) :
    cellNoTrace oc = true ↔ ∃ c, oc = some c ∧ c.isTrace = false := by
  cases oc with
  | none => simp [cellNoTrace]
  | some c => simp [cellNoTrace]

/-- C5: every created scope is named by its instantiation path: "TOP" with no
parent scope, the parent scope's path plus "." plus the instantiating cell's
instance name for a module scope, and the parent scope's path plus "." plus
the class name for a nested class scope. -/
theorem C5_scope_path_names
    (cfg : VConfig) (nl : Netlist) (n0 fuel : Nat) (s' : BState)
    (hwf : NetlistWF nl n0)
    (h : scopeVisitorRun cfg nl n0 fuel = .ok s') :
    ∀ sc ∈ s'.scopes,
      (sc.aboveScope = none → sc.name = "TOP") ∧
      (∀ ps, sc.aboveScope = some ps →
        ∃ pc ∈ s'.scopes, pc.sid = ps ∧
          ((sc.fromClass = none →
             ∃ c, sc.aboveCell = some c ∧
               sc.name = pc.name ++ "." ++ c.name) ∧
           (∀ cn, sc.fromClass = some cn →
             sc.name = pc.name ++ "." ++ cn))) := by
  intro sc hsc
  have hn := (scopeVisitorRun_spec hwf h).nameOK sc hsc
  unfold ScNameOK at hn
  constructor
  · intro hab; rw [hab] at hn; exact hn
  · intro ps hab
    rw [hab] at hn
    obtain ⟨pc, hpc, hsid, hname, hcell⟩ := hn
    refine ⟨pc, hpc, hsid, ?_, ?_⟩
    · intro hfc
      simp only [hfc] at hname
      obtain ⟨c, hc⟩ := Option.isSome_iff_exists.mp (hcell hfc)
      refine ⟨c, hc, ?_⟩
      rw [hname, hc]
      rfl
    · intro cn hfc
      simp only [hfc] at hname
      exact hname

set_option maxHeartbeats 1000000 in
/-- Witness for C5: the class example satisfies the hypotheses and the
theorem instantiates at it. -/
theorem C5_scope_path_names_witness :
    NetlistWF exClassNl 100 ∧
    (∀ sc ∈ (getOk (scopeVisitorRun exCfg exClassNl 100 20)).scopes,
      (sc.aboveScope = none → sc.name = "TOP") ∧
      (∀ ps, sc.aboveScope = some ps →
        ∃ pc ∈ (getOk (scopeVisitorRun exCfg exClassNl 100 20)).scopes,
          pc.sid = ps ∧
          ((sc.fromClass = none →
             ∃ c, sc.aboveCell = some c ∧
               sc.name = pc.name ++ "." ++ c.name) ∧
           (∀ cn, sc.fromClass = some cn →
             sc.name = pc.name ++ "." ++ cn)))) :=
  ⟨by decide, C5_scope_path_names exCfg exClassNl 100 20 _ (by decide) rfl⟩

set_option maxHeartbeats 1000000 in
/-- C6: a binding's trace flag depends only on the cell that instantiates the
binding's own scope — it is created disabled exactly when that cell exists
and opted out of tracing — and, concretely, two bindings of the same variable
declaration under different cells report opposite trace states. -/
theorem C6_trace_per_instantiating_cell
    (cfg : VConfig) (nl : Netlist) (n0 fuel : Nat) (s' : BState)
    (hwf : NetlistWF nl n0)
    (h : scopeVisitorRun cfg nl n0 fuel = .ok s') :
    (∀ r ∈ s'.createdVS, ∃ sc ∈ s'.scopes, sc.sid = r.sid ∧
      (r.trace = false ↔
        ∃ c, sc.aboveCell = some c ∧ c.isTrace = false)) ∧
    (∃ r1 ∈ (getOk (scopeVisitorRun exCfg exPair 100 20)).createdVS,
     ∃ r2 ∈ (getOk (scopeVisitorRun exCfg exPair 100 20)).createdVS,
       r1.varId = r2.varId ∧ r1.sid ≠ r2.sid ∧
       r1.trace = true ∧ r2.trace = false) := by
  constructor
  · intro r hr
    obtain ⟨sc, hsc, hsid, hiff⟩ := (scopeVisitorRun_spec hwf h).traceOK r hr
    rw [cellNoTrace_iff] at hiff
    exact ⟨sc, hsc, hsid, hiff⟩
  · decide

set_option maxHeartbeats 1000000 in
/-- Witness for C6: the two-instance example satisfies the hypotheses and
the theorem instantiates at it. -/
theorem C6_trace_per_instantiating_cell_witness :
    NetlistWF exPair 100 ∧
    ((∀ r ∈ (getOk (scopeVisitorRun exCfg exPair 100 20)).createdVS,
       ∃ sc ∈ (getOk (scopeVisitorRun exCfg exPair 100 20)).scopes,
         sc.sid = r.sid ∧
         (r.trace = false ↔
           ∃ c, sc.aboveCell = some c ∧ c.isTrace = false)) ∧
     (∃ r1 ∈ (getOk (scopeVisitorRun exCfg exPair 100 20)).createdVS,
      ∃ r2 ∈ (getOk (scopeVisitorRun exCfg exPair 100 20)).createdVS,
        r1.varId = r2.varId ∧ r1.sid ≠ r2.sid ∧
        r1.trace = true ∧ r2.trace = false)) :=
  ⟨by decide,
   C6_trace_per_instantiating_cell exCfg exPair 100 20 _ (by decide) rfl⟩

set_option maxHeartbeats 1000000 in
/-- Counterexample to C8 as stated: with the explicit-clock list naming only
"TOP.a.x", the run over the two-instance example creates two bindings of
declaration 10 with pretty names "TOP.a.x" and "TOP.b.x" in distinct scopes,
yet the recorded clock annotation is a single entry keyed by the declaration
alone — the "TOP.b.x" binding, whose pretty name is on neither list, shares
the CLOCKER_YES annotation instead of carrying its own. -/
theorem C8_clock_annotation_counterexample :
    VConfig.isClocker exCfgClk "TOP.a.x" = true ∧
    VConfig.isClocker exCfgClk "TOP.b.x" = false ∧
    VConfig.isNoClocker exCfgClk "TOP.b.x" = false ∧
    (∃ r1 ∈ (getOk (scopeVisitorRun exCfgClk exPair 100 20)).createdVS,
     ∃ r2 ∈ (getOk (scopeVisitorRun exCfgClk exPair 100 20)).createdVS,
       r1.varId = 10 ∧ r2.varId = 10 ∧
       r1.prettyName = "TOP.a.x" ∧ r2.prettyName = "TOP.b.x" ∧
       r1.sid ≠ r2.sid) ∧
    (getOk (scopeVisitorRun exCfgClk exPair 100 20)).attrClocker =
      [(10, VVarAttrClocker.CLOCKER_YES)] := by
  decide

/-- C8 (amended): when a binding is created its fully qualified pretty name
is consulted against the global explicit-clock / explicit-not-clock lists,
but the resulting annotation is written to the shared variable declaration,
keyed by the declaration alone: after the run, a declaration carries
CLOCKER_YES (resp. CLOCKER_NO) only if some binding of it has a pretty name
on the corresponding list, and all bindings of the declaration share that one
annotation. -/
theorem C8_clock_annotation_on_declaration
    (cfg : VConfig) (nl : Netlist) (n0 fuel : Nat) (s' : BState)
    (hwf : NetlistWF nl n0)
    (h : scopeVisitorRun cfg nl n0 fuel = .ok s') :
    ∀ p ∈ s'.attrClocker, ∃ r ∈ s'.createdVS, r.varId = p.1 ∧
      ((p.2 = VVarAttrClocker.CLOCKER_YES ∧
        cfg.isClocker r.prettyName = true) ∨
       (p.2 = VVarAttrClocker.CLOCKER_NO ∧
        cfg.isNoClocker r.prettyName = true)) :=
  (scopeVisitorRun_spec hwf h).clockOK

set_option maxHeartbeats 1000000 in
/-- Witness for the amended C8: the clocked configuration over the
two-instance example satisfies the hypotheses and the theorem instantiates
at it. -/
theorem C8_clock_annotation_on_declaration_witness :
    NetlistWF exPair 100 ∧
    (∀ p ∈ (getOk (scopeVisitorRun exCfgClk exPair 100 20)).attrClocker,
      ∃ r ∈ (getOk (scopeVisitorRun exCfgClk exPair 100 20)).createdVS,
        r.varId = p.1 ∧
        ((p.2 = VVarAttrClocker.CLOCKER_YES ∧
          VConfig.isClocker exCfgClk r.prettyName = true) ∨
         (p.2 = VVarAttrClocker.CLOCKER_NO ∧
          VConfig.isNoClocker exCfgClk r.prettyName = true))) :=
  ⟨by decide,
   C8_clock_annotation_on_declaration exCfgClk exPair 100 20 _ (by decide)
     rfl⟩

/-- C7: when populating a scope, a task/function visit distinguishes class
methods with a single possible binding (non-virtual, non-overridden methods):
such a method is re-parented — the original node itself, with its identity
and children unchanged and no fresh identities drawn, is attached to the new
scope and removed from the sibling chain, with its breadcrumb pointing to
itself; any other task/function is cloned — a fresh copy with a new identity
distinct from the original's is attached, and the original's breadcrumb
points to the clone. -/
theorem C7_class_method_moved_not_cloned
    (cfg : VConfig) (nl : Netlist) (fuel : Nat) (ctx : Ctx) (s : BState)
    (nid : Nat) (im iv io : Bool) (ch : List Node) (sid : Nat)
    (hsc : ctx.scopep = some sid) (hnid : nid < s.nextId) :
    (classMethodFlag im iv io = true ↔
      im = true ∧ iv = false ∧ io = false) ∧
    (classMethodFlag im iv io = true →
      exec cfg nl (fuel + 1) (.stmt (.ftask nid im iv io ch) ctx) s =
        exec cfg nl fuel (.list ch ctx)
          { s with
            unlinked := nid :: s.unlinked,
            user2 := aset nid nid s.user2,
            activeps := s.activeps ++ [(sid, .ftask nid im iv io ch)] }) ∧
    (classMethodFlag im iv io = false →
      ∃ cln b2, cloneTree (.ftask nid im iv io ch) s.nextId = (cln, b2) ∧
        nidD cln = s.nextId ∧ nid ≠ nidD cln ∧
        exec cfg nl (fuel + 1) (.stmt (.ftask nid im iv io ch) ctx) s =
          exec cfg nl fuel (.list (childrenOf cln) ctx)
            { s with
              nextId := b2,
              user2 := aset nid (nidD cln) s.user2,
              activeps := s.activeps ++ [(sid, cln)] }) := by
  refine ⟨?_, ?_, ?_⟩
  · simp [classMethodFlag, Bool.and_eq_true, Bool.not_eq_true', and_assoc]
  · intro hcm
    simp only [exec, hsc, hcm, if_true]
  · intro hcm
    have hstep : ∃ ch2 b3 m3,
        cloneTree (.ftask nid im iv io ch) s.nextId =
          (.ftask s.nextId im iv io (relinkList m3 ch2), b3) := by
      unfold cloneTree cloneNode
      rcases hcl2 : cloneList ch (s.nextId + 1) with ⟨ch2, b3, m3⟩
      simp only [hcl2]
      exact ⟨ch2, b3, m3, rfl⟩
    obtain ⟨ch2, b3, m3, hct⟩ := hstep
    refine ⟨.ftask s.nextId im iv io (relinkList m3 ch2), b3, hct, rfl,
      by simp only [nidD]; omega, ?_⟩
    simp only [exec, hsc, hcm, if_false, hct, nidD]
    rfl

/-- Witness for C7: the hypotheses hold at a concrete class-method visit and
the theorem instantiates there. -/
theorem C7_class_method_moved_not_cloned_witness :
    (Ctx.mk (some 1) (some 5) none none).scopep = some 5 ∧
    7 < (initState 100).nextId ∧
    ((classMethodFlag true false false = true ↔
       true = true ∧ false = false ∧ false = false) ∧
     (classMethodFlag true false false = true →
       exec exCfg exPair (3 + 1)
           (.stmt (.ftask 7 true false false [])
             (Ctx.mk (some 1) (some 5) none none)) (initState 100) =
         exec exCfg exPair 3 (.list [] (Ctx.mk (some 1) (some 5) none none))
           { initState 100 with
             unlinked := 7 :: (initState 100).unlinked,
             user2 := aset 7 7 (initState 100).user2,
             activeps := (initState 100).activeps ++
               [(5, .ftask 7 true false false [])] }) ∧
     (classMethodFlag true false false = false →
       ∃ cln b2,
         cloneTree (.ftask 7 true false false []) (initState 100).nextId =
           (cln, b2) ∧
         nidD cln = (initState 100).nextId ∧ 7 ≠ nidD cln ∧
         exec exCfg exPair (3 + 1)
             (.stmt (.ftask 7 true false false [])
               (Ctx.mk (some 1) (some 5) none none)) (initState 100) =
           exec exCfg exPair 3
             (.list (childrenOf cln) (Ctx.mk (some 1) (some 5) none none))
             { initState 100 with
               nextId := b2,
               user2 := aset 7 (nidD cln) (initState 100).user2,
               activeps := (initState 100).activeps ++ [(5, cln)] })) :=
  ⟨rfl, by decide,
   C7_class_method_moved_not_cloned exCfg exPair 3
     (Ctx.mk (some 1) (some 5) none none) (initState 100) 7 true false false
     [] 5 rfl (by decide)⟩

/-- C4: a visited variable reference is never bound immediately: when its
target is not interface-typed the visit exactly appends the reference paired
with the current scope to the deferred worklist (every other state field,
including the reference bindings, unchanged); when the target is
interface-typed the visit exactly sets the reference's binding to null and
touches nothing else (in particular the worklist); and at the end of the
whole builder tree walk every recorded reference binding is still null and no
interface-typed reference sits on the worklist. -/
theorem C4_deferred_reference_resolution (cfg : VConfig) (nl : Netlist) :
    (∀ (fuel : Nat) (ctx : Ctx) (s : BState) (rid : Nat) (v : Var)
       (pkg : Option Nat), v.isIfaceRef = false →
      exec cfg nl (fuel + 1) (.stmt (.varRef rid (some v) pkg) ctx) s =
        .ok { s with
          varRefScopes :=
            sinsert (RefScope.mk rid v pkg ctx.scopep) s.varRefScopes }) ∧
    (∀ (fuel : Nat) (ctx : Ctx) (s : BState) (rid : Nat) (v : Var)
       (pkg : Option Nat), v.isIfaceRef = true →
      exec cfg nl (fuel + 1) (.stmt (.varRef rid (some v) pkg) ctx) s =
        .ok { s with boundRefs := aset rid none s.boundRefs }) ∧
    (∀ (n0 fuel : Nat) (m : VModule) (sMid : BState),
      NetlistWF nl n0 → m ∈ nl.modules →
      exec cfg nl fuel (.mod m (Ctx.mk none none none none))
          (initState n0) = .ok sMid →
      (∀ p ∈ sMid.boundRefs, p.2 = none) ∧
      (∀ e ∈ sMid.varRefScopes, e.varp.isIfaceRef = false)) := by
  refine ⟨?_, ?_, ?_⟩
  · intro fuel ctx s rid v pkg hif
    simp only [exec, hif, Bool.false_eq_true, if_false]
  · intro fuel ctx s rid v pkg hif
    simp only [exec, hif, if_true]
  · intro n0 fuel m sMid hwf hm hex
    have hinv0 : SInv cfg (initState n0) := by
      constructor <;> simp [initState, vsKeys]
    have hnb0 : ∀ m' ∈ nl.modules, ∀ i ∈ idsOfL m'.stmts,
        i < (initState n0).nextId := hwf.2
    have hpre0 : JobPre nl (.mod m (Ctx.mk none none none none))
        (initState n0) := ⟨hm, fun ps hps => by cases hps⟩
    obtain ⟨hinvM, _⟩ :=
      exec_master cfg nl hwf.1 fuel _ _ _ hex hinv0 hnb0 hpre0
    exact ⟨hinvM.boundNone, hinvM.wlNoIface⟩

set_option maxHeartbeats 1000000 in
/-- Witness for C4: the three parts instantiate at a non-interface
reference, an interface reference, and the builder walk over the
two-instance example. -/
theorem C4_deferred_reference_resolution_witness :
    (exVarX.isIfaceRef = false ∧
      exec exCfg exPair (5 + 1)
          (.stmt (.varRef 12 (some exVarX) none)
            (Ctx.mk (some 2) (some 9) none none)) (initState 100) =
        .ok { initState 100 with
          varRefScopes :=
            sinsert
              (RefScope.mk 12 exVarX none
                (Ctx.mk (some 2) (some 9) none none).scopep)
              (initState 100).varRefScopes }) ∧
    ((Var.mk 50 "ifc" true false).isIfaceRef = true ∧
      exec exCfg exPair (5 + 1)
          (.stmt (.varRef 51 (some (Var.mk 50 "ifc" true false)) none)
            (Ctx.mk (some 2) (some 9) none none)) (initState 100) =
        .ok { initState 100 with
          boundRefs := aset 51 none (initState 100).boundRefs }) ∧
    (NetlistWF exPair 100 ∧ exTop2 ∈ exPair.modules ∧
      ((∀ p ∈ (getOk (exec exCfg exPair 20
            (.mod exTop2 (Ctx.mk none none none none))
            (initState 100))).boundRefs, p.2 = none) ∧
       (∀ e ∈ (getOk (exec exCfg exPair 20
            (.mod exTop2 (Ctx.mk none none none none))
            (initState 100))).varRefScopes,
          e.varp.isIfaceRef = false))) :=
  ⟨⟨rfl, (C4_deferred_reference_resolution exCfg exPair).1 5
      (Ctx.mk (some 2) (some 9) none none) (initState 100) 12 exVarX none
      rfl⟩,
   ⟨rfl, (C4_deferred_reference_resolution exCfg exPair).2.1 5
      (Ctx.mk (some 2) (some 9) none none) (initState 100) 51
      (Var.mk 50 "ifc" true false) none rfl⟩,
   ⟨by decide, List.mem_cons_self _ _,
    (C4_deferred_reference_resolution exCfg exPair).2.2 100 20 exTop2 _
      (by decide) (List.mem_cons_self _ _) rfl⟩⟩

/-- Splitting a successful `Except` bind. -/
theorem bindOk {α β : Type} {e : Except String α} {f : α → Except String β}
    {b : β} (h : e.bind f = .ok b) : ∃ a, e = .ok a ∧ f a = .ok b := by
  cases e with
  | error e => simp [Except.bind] at h
  | ok a => exact ⟨a, rfl, h⟩

/-- All-members characterisation of `outsideCleanL`. -/
theorem outsideCleanL_of_all {l : List Node}
    (h : ∀ x ∈ l, outsideClean x = true) : outsideCleanL l = true := by
  induction l with
  | nil => rfl
  | cons n ns ih =>
    simp only [outsideCleanL, Bool.and_eq_true]
    exact ⟨h n (List.mem_cons_self n ns),
      ih fun x hx => h x (List.mem_cons.mpr (Or.inr hx))⟩

/-- A clonable block visited inside a scope is kept: its children are
recursively cleaned and re-attached in place. -/
theorem cleanExec_block_inside (u : List (Nat × Nat)) :
    ∀ (fuel : Nat) (n : Node) (st : CState),
      cloneKind n = true → st.inScope = true →
      cleanExec u (fuel + 1) (.cnode n) st = (do
        let (ch2, st2) ← cleanExec u fuel (.clist (childrenOf n)) st
        Except.ok ([withChildren n ch2], st2)) := by
  intro fuel n st hck hin
  cases n <;> simp_all [cleanExec, cloneKind, childrenOf, withChildren]

/-- A clonable block visited outside any scope is unlinked from the tree and
queued for deallocation. -/
theorem cleanExec_block_outside (u : List (Nat × Nat)) :
    ∀ (fuel : Nat) (n : Node) (st : CState),
      cloneKind n = true → st.inScope = false →
      cleanExec u (fuel + 1) (.cnode n) st =
        .ok ([], { st with deleted := st.deleted ++ [n] }) := by
  intro fuel n st hck hin
  cases n <;> simp_all [cleanExec, cloneKind]

/-- Walking any subtree with the scope cursor null leaves the cursor null and
returns only nodes whose subtrees hold no clonable block outside a scope. -/
theorem cleanExec_outside (u : List (Nat × Nat)) :
    ∀ (fuel : Nat) (j : CJob) (st : CState) (out : List Node) (st' : CState),
      cleanExec u fuel j st = .ok (out, st') → st.inScope = false →
      st'.inScope = false ∧ ∀ x ∈ out, outsideClean x = true := by
  intro fuel
  induction fuel with
  | zero => intro j st out st' h _; simp [cleanExec] at h
  | succ fuel ih =>
    intro j st out st' h hsc
    cases j with
    | clist ns =>
      cases ns with
      | nil =>
        simp only [cleanExec, Except.ok.injEq, Prod.mk.injEq] at h
        obtain ⟨ho, hs⟩ := h
        subst ho; subst hs
        exact ⟨hsc, fun x hx => absurd hx (List.not_mem_nil x)⟩
      | cons n ns =>
        simp only [cleanExec, bind, Except.bind] at h
        obtain ⟨⟨hd, st1⟩, hh, h⟩ := bindOk h
        obtain ⟨h1f, h1c⟩ := ih _ _ _ _ hh hsc
        obtain ⟨⟨tl, st2⟩, ht, h⟩ := bindOk h
        obtain ⟨h2f, h2c⟩ := ih _ _ _ _ ht h1f
        simp only [Except.ok.injEq, Prod.mk.injEq] at h
        obtain ⟨ho, hs⟩ := h
        subst ho; subst hs
        refine ⟨h2f, ?_⟩
        intro x hx
        rcases List.mem_append.mp hx with hx | hx
        · exact h1c x hx
        · exact h2c x hx
    | cnode n =>
      cases n
      case scopeNode sid ch =>
        simp only [cleanExec, bind, Except.bind] at h
        obtain ⟨⟨ch2, st2⟩, hh, h⟩ := bindOk h
        simp only [Except.ok.injEq, Prod.mk.injEq] at h
        obtain ⟨ho, hs⟩ := h
        subst ho; subst hs
        refine ⟨rfl, ?_⟩
        intro x hx
        simp only [List.mem_singleton] at hx
        subst hx
        rfl
      case varXRef r vp ch =>
        simp only [cleanExec, Except.ok.injEq, Prod.mk.injEq] at h
        obtain ⟨ho, hs⟩ := h
        subst ho; subst hs
        refine ⟨hsc, ?_⟩
        intro x hx
        simp only [List.mem_singleton] at hx
        subst hx
        rfl
      case ftaskRef mcall pkg taskp ch =>
        cases pkg with
        | some pk =>
          cases taskp with
          | none => simp [cleanExec] at h
          | some t =>
            cases hlk : lookupA t u with
            | none => simp [cleanExec, hlk] at h
            | some nt =>
              simp only [cleanExec, hlk, bind, Except.bind] at h
              obtain ⟨⟨ch2, st2⟩, hh, h⟩ := bindOk h
              obtain ⟨h1f, h1c⟩ := ih _ _ _ _ hh hsc
              simp only [Except.ok.injEq, Prod.mk.injEq] at h
              obtain ⟨ho, hs⟩ := h
              subst ho; subst hs
              refine ⟨h1f, ?_⟩
              intro x hx
              simp only [List.mem_singleton] at hx
              subst hx
              simp only [outsideClean]
              exact outsideCleanL_of_all h1c
        | none =>
          simp only [cleanExec, bind, Except.bind] at h
          have htail : ∀ (X : Option Nat) (hX : ∃ ch2 st2,
              cleanExec u fuel (.clist ch) st = .ok (ch2, st2) ∧
              .ok ([Node.ftaskRef mcall none X ch2], st2) =
                (.ok (out, st') : Except String (List Node × CState))),
              st'.inScope = false ∧ ∀ x ∈ out, outsideClean x = true := by
            intro X hX
            obtain ⟨ch2, st2, hh, h2⟩ := hX
            obtain ⟨h1f, h1c⟩ := ih _ _ _ _ hh hsc
            simp only [Except.ok.injEq, Prod.mk.injEq] at h2
            obtain ⟨ho, hs⟩ := h2
            subst ho; subst hs
            refine ⟨h1f, ?_⟩
            intro x hx
            simp only [List.mem_singleton] at hx
            subst hx
            simp only [outsideClean]
            exact outsideCleanL_of_all h1c
          by_cases hmc : (!mcall) = true
          · rw [if_pos hmc] at h
            obtain ⟨⟨ch2, st2⟩, hh, h⟩ := bindOk h
            exact htail none ⟨ch2, st2, hh, h⟩
          · rw [if_neg hmc] at h
            obtain ⟨⟨ch2, st2⟩, hh, h⟩ := bindOk h
            exact htail taskp ⟨ch2, st2, hh, h⟩
      case procedure nid ch =>
        rw [cleanExec_block_outside u fuel (.procedure nid ch) st rfl hsc] at h
        simp only [Except.ok.injEq, Prod.mk.injEq] at h
        obtain ⟨ho, hs⟩ := h
        subst ho; subst hs
        exact ⟨hsc, fun x hx => absurd hx (List.not_mem_nil x)⟩
      case assignAlias nid ch =>
        rw [cleanExec_block_outside u fuel (.assignAlias nid ch) st rfl hsc] at h
        simp only [Except.ok.injEq, Prod.mk.injEq] at h
        obtain ⟨ho, hs⟩ := h
        subst ho; subst hs
        exact ⟨hsc, fun x hx => absurd hx (List.not_mem_nil x)⟩
      case assignVarScope nid ch =>
        rw [cleanExec_block_outside u fuel (.assignVarScope nid ch) st rfl hsc] at h
        simp only [Except.ok.injEq, Prod.mk.injEq] at h
        obtain ⟨ho, hs⟩ := h
        subst ho; subst hs
        exact ⟨hsc, fun x hx => absurd hx (List.not_mem_nil x)⟩
      case assignW nid ch =>
        rw [cleanExec_block_outside u fuel (.assignW nid ch) st rfl hsc] at h
        simp only [Except.ok.injEq, Prod.mk.injEq] at h
        obtain ⟨ho, hs⟩ := h
        subst ho; subst hs
        exact ⟨hsc, fun x hx => absurd hx (List.not_mem_nil x)⟩
      case alwaysPublic nid ch =>
        rw [cleanExec_block_outside u fuel (.alwaysPublic nid ch) st rfl hsc] at h
        simp only [Except.ok.injEq, Prod.mk.injEq] at h
        obtain ⟨ho, hs⟩ := h
        subst ho; subst hs
        exact ⟨hsc, fun x hx => absurd hx (List.not_mem_nil x)⟩
      case coverToggle nid ch =>
        rw [cleanExec_block_outside u fuel (.coverToggle nid ch) st rfl hsc] at h
        simp only [Except.ok.injEq, Prod.mk.injEq] at h
        obtain ⟨ho, hs⟩ := h
        subst ho; subst hs
        exact ⟨hsc, fun x hx => absurd hx (List.not_mem_nil x)⟩
      case ftask nid a b c ch =>
        rw [cleanExec_block_outside u fuel (.ftask nid a b c ch) st rfl hsc] at h
        simp only [Except.ok.injEq, Prod.mk.injEq] at h
        obtain ⟨ho, hs⟩ := h
        subst ho; subst hs
        exact ⟨hsc, fun x hx => absurd hx (List.not_mem_nil x)⟩
      case cfunc nid ch =>
        rw [cleanExec_block_outside u fuel (.cfunc nid ch) st rfl hsc] at h
        simp only [Except.ok.injEq, Prod.mk.injEq] at h
        obtain ⟨ho, hs⟩ := h
        subst ho; subst hs
        exact ⟨hsc, fun x hx => absurd hx (List.not_mem_nil x)⟩
      all_goals
        simp only [cleanExec, cloneKind, Bool.false_eq_true, if_false,
          bind, Except.bind] at h
      all_goals
        obtain ⟨⟨ch2, st2⟩, hh, h⟩ := bindOk h
      all_goals
        obtain ⟨h1f, h1c⟩ := ih _ _ _ _ hh hsc
      all_goals
        simp only [Except.ok.injEq, Prod.mk.injEq] at h
      all_goals
        obtain ⟨ho, hs⟩ := h
      all_goals
        subst ho
      all_goals
        subst hs
      all_goals
        refine ⟨h1f, ?_⟩
      all_goals
        intro x hx
      all_goals
        simp only [List.mem_singleton] at hx
      all_goals
        subst hx
      all_goals
        simp only [withChildren, outsideClean]
      all_goals
        first
          | rfl
          | exact outsideCleanL_of_all h1c

/-- The module fold of the cleanup run preserves a null scope cursor and
produces only modules whose statement trees hold no clonable block outside a
scope. -/
theorem cleanFold_outside (u : List (Nat × Nat)) (fuel : Nat) :
    ∀ (mods : List VModule) (acc : List VModule) (st : CState)
      (out : List VModule × CState),
      List.foldlM
        (fun (acc : List VModule × CState) m => do
          let (stmts', st') ← cleanExec u fuel (.clist m.stmts) acc.2
          pure (acc.1 ++ [{ m with stmts := stmts' }], st'))
        (acc, st) mods = .ok out →
      st.inScope = false →
      (∀ m ∈ acc, outsideCleanL m.stmts = true) →
      (∀ m ∈ out.1, outsideCleanL m.stmts = true) ∧ out.2.inScope = false := by
  intro mods
  induction mods with
  | nil =>
    intro acc st out h hsc hacc
    simp only [List.foldlM, pure, Except.pure, Except.ok.injEq] at h
    subst h
    exact ⟨hacc, hsc⟩
  | cons m ms ih =>
    intro acc st out h hsc hacc
    simp only [List.foldlM, bind, Except.bind, pure, Except.pure] at h
    obtain ⟨b1, hb1, h⟩ := bindOk h
    obtain ⟨⟨stmts2, st2⟩, hcl, hb⟩ := bindOk hb1
    simp only [Except.ok.injEq] at hb
    subst hb
    obtain ⟨h2f, h2c⟩ := cleanExec_outside u fuel _ _ _ _ hcl hsc
    refine ih _ st2 out h h2f ?_
    intro m2 hm2
    rcases List.mem_append.mp hm2 with hm2 | hm2
    · exact hacc m2 hm2
    · simp only [List.mem_singleton] at hm2
      subst hm2
      exact outsideCleanL_of_all h2c

/-- After a whole cleanup run, no module's statement tree holds a clonable
block outside a scope. -/
theorem cleanNetlist_outside (u : List (Nat × Nat)) (fuel : Nat)
    (nl nl' : Netlist) (st' : CState)
    (h : cleanNetlist u fuel nl = .ok (nl', st')) :
    ∀ m ∈ nl'.modules, outsideCleanL m.stmts = true := by
  unfold cleanNetlist at h
  simp only [bind, Except.bind] at h
  obtain ⟨r, hr, hfin⟩ := bindOk h
  have hmain := cleanFold_outside u fuel nl.modules [] ⟨false, []⟩ r hr rfl
    (fun m hm => absurd hm (List.not_mem_nil m))
  simp only [Except.ok.injEq, Prod.mk.injEq] at hfin
  obtain ⟨hn, hs⟩ := hfin
  subst hn; subst hs
  exact hmain.1

/-- C3: in the cleanup pass, a clonable statement block visited inside a
scope is kept, with its children recursively cleaned and re-attached in
place, while one visited outside any scope is unlinked from the tree and
queued for deallocation; consequently, after a whole cleanup run no module's
statement tree holds a clonable block outside a scope subtree — every
surviving clonable block sits under the (unique) scope that owns it. -/
theorem C3_cleanup_blocks (u : List (Nat × Nat)) :
    (∀ (fuel : Nat) (n : Node) (st : CState),
      cloneKind n = true → st.inScope = true →
      cleanExec u (fuel + 1) (.cnode n) st = (do
        let (ch2, st2) ← cleanExec u fuel (.clist (childrenOf n)) st
        Except.ok ([withChildren n ch2], st2))) ∧
    (∀ (fuel : Nat) (n : Node) (st : CState),
      cloneKind n = true → st.inScope = false →
      cleanExec u (fuel + 1) (.cnode n) st =
        .ok ([], { st with deleted := st.deleted ++ [n] })) ∧
    (∀ (fuel : Nat) (nl nl' : Netlist) (st' : CState),
      cleanNetlist u fuel nl = .ok (nl', st') →
      ∀ m ∈ nl'.modules, outsideCleanL m.stmts = true) :=
  ⟨cleanExec_block_inside u, cleanExec_block_outside u,
   fun fuel nl nl' st' h => cleanNetlist_outside u fuel nl nl' st' h⟩

/-- Witness for C3: the three parts instantiate at a block inside a scope, a
block outside any scope, and the cleanup run over the example netlist. -/
theorem C3_cleanup_blocks_witness :
    (cloneKind (Node.procedure 61 []) = true ∧
     (CState.mk true []).inScope = true ∧
     cleanExec [] (5 + 1) (.cnode (.procedure 61 [])) (CState.mk true []) =
       (do
         let (ch2, st2) ← cleanExec [] 5
           (.clist (childrenOf (Node.procedure 61 []))) (CState.mk true [])
         Except.ok ([withChildren (Node.procedure 61 []) ch2], st2))) ∧
    (cloneKind (Node.procedure 62 []) = true ∧
     (CState.mk false []).inScope = false ∧
     cleanExec [] (5 + 1) (.cnode (.procedure 62 [])) (CState.mk false []) =
       .ok ([], { CState.mk false [] with
         deleted := (CState.mk false []).deleted ++ [Node.procedure 62 []] })) ∧
    (cleanNetlist [] 20 exCleanNl =
       .ok ((cleanOk (cleanNetlist [] 20 exCleanNl)).1,
            (cleanOk (cleanNetlist [] 20 exCleanNl)).2) ∧
     ∀ m ∈ (cleanOk (cleanNetlist [] 20 exCleanNl)).1.modules,
       outsideCleanL m.stmts = true) :=
  ⟨⟨rfl, rfl,
    (C3_cleanup_blocks []).1 5 (.procedure 61 []) (CState.mk true []) rfl
      rfl⟩,
   ⟨rfl, rfl,
    (C3_cleanup_blocks []).2.1 5 (.procedure 62 []) (CState.mk false []) rfl
      rfl⟩,
   ⟨rfl, (C3_cleanup_blocks []).2.2 20 exCleanNl _ _ rfl⟩⟩
